import Mathlib

/-!
Shallow embedding of the zmodem2 crate (src/lib.rs): byte codec (escape
tables, CRC-16/XMODEM, CRC-32/ISO-HDLC, hex), frame codec (Header
write/read), subpacket codec, and the sender/receiver state machines.

Modeling conventions:
* Bytes are `Nat` (theorems carry `< 256` bounds where relevant).
* The byte channel is a `List Nat` consumed from the front; writers return
  the list of bytes emitted.
* `Res` is the result type: `ok`, `err` (Rust `InvalidData`), `crash`
  (a Rust panic: failed assert, `unimplemented!`, buffer-capacity
  overflow) and `spin` (fuel exhaustion of a loop that would block/run on).
* u32 arithmetic is `Nat` with `% 2^32` where the source can overflow.
* Fixed-capacity buffers (`[u8; 2048]` escape scratch, the 2048-byte
  `RxBuffer`, the 1024-byte `TxBuffer`) crash when the source would panic
  on overflow.
-/

set_option maxRecDepth 10000

inductive Res (α : Type) : Type where
  | ok : α → Res α
  | err : Res α
  | crash : Res α
  | spin : Res α
deriving DecidableEq, Repr

/-- ZPAD = b'*' -/
def ZPAD : Nat := 0x2a
/-- ZDLE = 0x18 -/
def ZDLE : Nat := 0x18
/-- XON = 0x11 -/
def XON : Nat := 0x11
/-- maximum subpacket payload -/
def SUBPACKET_SIZE : Nat := 1024
/-- subpackets per ack window -/
def SUBPACKET_PER_ACK : Nat := 10

/-- The 256-entry escape table from the source (`ZDLE_TABLE`). -/
def ZDLE_TABLE : List Nat := [
  0x00, 0x01, 0x02, 0x03, 0x04, 0x05, 0x06, 0x07, 0x08, 0x09, 0x0a, 0x0b, 0x0c, 0x4d, 0x0e, 0x0f,
  0x50, 0x51, 0x12, 0x53, 0x14, 0x15, 0x16, 0x17, 0x58, 0x19, 0x1a, 0x1b, 0x1c, 0x1d, 0x1e, 0x1f,
  0x20, 0x21, 0x22, 0x23, 0x24, 0x25, 0x26, 0x27, 0x28, 0x29, 0x2a, 0x2b, 0x2c, 0x2d, 0x2e, 0x2f,
  0x30, 0x31, 0x32, 0x33, 0x34, 0x35, 0x36, 0x37, 0x38, 0x39, 0x3a, 0x3b, 0x3c, 0x3d, 0x3e, 0x3f,
  0x40, 0x41, 0x42, 0x43, 0x44, 0x45, 0x46, 0x47, 0x48, 0x49, 0x4a, 0x4b, 0x4c, 0x4d, 0x4e, 0x4f,
  0x50, 0x51, 0x52, 0x53, 0x54, 0x55, 0x56, 0x57, 0x58, 0x59, 0x5a, 0x5b, 0x5c, 0x5d, 0x5e, 0x5f,
  0x60, 0x61, 0x62, 0x63, 0x64, 0x65, 0x66, 0x67, 0x68, 0x69, 0x6a, 0x6b, 0x6c, 0x6d, 0x6e, 0x6f,
  0x70, 0x71, 0x72, 0x73, 0x74, 0x75, 0x76, 0x77, 0x78, 0x79, 0x7a, 0x7b, 0x7c, 0x7d, 0x7e, 0x6c,
  0x80, 0x81, 0x82, 0x83, 0x84, 0x85, 0x86, 0x87, 0x88, 0x89, 0x8a, 0x8b, 0x8c, 0xcd, 0x8e, 0x8f,
  0xd0, 0xd1, 0x92, 0xd3, 0x94, 0x95, 0x96, 0x97, 0x98, 0x99, 0x9a, 0x9b, 0x9c, 0x9d, 0x9e, 0x9f,
  0xa0, 0xa1, 0xa2, 0xa3, 0xa4, 0xa5, 0xa6, 0xa7, 0xa8, 0xa9, 0xaa, 0xab, 0xac, 0xad, 0xae, 0xaf,
  0xb0, 0xb1, 0xb2, 0xb3, 0xb4, 0xb5, 0xb6, 0xb7, 0xb8, 0xb9, 0xba, 0xbb, 0xbc, 0xbd, 0xbe, 0xbf,
  0xc0, 0xc1, 0xc2, 0xc3, 0xc4, 0xc5, 0xc6, 0xc7, 0xc8, 0xc9, 0xca, 0xcb, 0xcc, 0xcd, 0xce, 0xcf,
  0xd0, 0xd1, 0xd2, 0xd3, 0xd4, 0xd5, 0xd6, 0xd7, 0xd8, 0xd9, 0xda, 0xdb, 0xdc, 0xdd, 0xde, 0xdf,
  0xe0, 0xe1, 0xe2, 0xe3, 0xe4, 0xe5, 0xe6, 0xe7, 0xe8, 0xe9, 0xea, 0xeb, 0xec, 0xed, 0xee, 0xef,
  0xf0, 0xf1, 0xf2, 0xf3, 0xf4, 0xf5, 0xf6, 0xf7, 0xf8, 0xf9, 0xfa, 0xfb, 0xfc, 0xfd, 0xfe, 0x6d]

/-- The 256-entry unescape table from the source (`UNZDLE_TABLE`). -/
def UNZDLE_TABLE : List Nat := [
  0x00, 0x01, 0x02, 0x03, 0x04, 0x05, 0x06, 0x07, 0x08, 0x09, 0x0a, 0x0b, 0x0c, 0x0d, 0x0e, 0x0f,
  0x10, 0x11, 0x12, 0x13, 0x14, 0x15, 0x16, 0x17, 0x18, 0x19, 0x1a, 0x1b, 0x1c, 0x1d, 0x1e, 0x1f,
  0x20, 0x21, 0x22, 0x23, 0x24, 0x25, 0x26, 0x27, 0x28, 0x29, 0x2a, 0x2b, 0x2c, 0x2d, 0x2e, 0x2f,
  0x30, 0x31, 0x32, 0x33, 0x34, 0x35, 0x36, 0x37, 0x38, 0x39, 0x3a, 0x3b, 0x3c, 0x3d, 0x3e, 0x3f,
  0x00, 0x01, 0x02, 0x03, 0x04, 0x05, 0x06, 0x07, 0x08, 0x09, 0x0a, 0x0b, 0x0c, 0x0d, 0x0e, 0x0f,
  0x10, 0x11, 0x12, 0x13, 0x14, 0x15, 0x16, 0x17, 0x18, 0x19, 0x1a, 0x1b, 0x1c, 0x1d, 0x1e, 0x1f,
  0x60, 0x61, 0x62, 0x63, 0x64, 0x65, 0x66, 0x67, 0x68, 0x69, 0x6a, 0x6b, 0x7f, 0xff, 0x6e, 0x6f,
  0x70, 0x71, 0x72, 0x73, 0x74, 0x75, 0x76, 0x77, 0x78, 0x79, 0x7a, 0x7b, 0x7c, 0x7d, 0x7e, 0x7f,
  0x80, 0x81, 0x82, 0x83, 0x84, 0x85, 0x86, 0x87, 0x88, 0x89, 0x8a, 0x8b, 0x8c, 0x8d, 0x8e, 0x8f,
  0x90, 0x91, 0x92, 0x93, 0x94, 0x95, 0x96, 0x97, 0x98, 0x99, 0x9a, 0x9b, 0x9c, 0x9d, 0x9e, 0x9f,
  0xa0, 0xa1, 0xa2, 0xa3, 0xa4, 0xa5, 0xa6, 0xa7, 0xa8, 0xa9, 0xaa, 0xab, 0xac, 0xad, 0xae, 0xaf,
  0xb0, 0xb1, 0xb2, 0xb3, 0xb4, 0xb5, 0xb6, 0xb7, 0xb8, 0xb9, 0xba, 0xbb, 0xbc, 0xbd, 0xbe, 0xbf,
  0x80, 0x81, 0x82, 0x83, 0x84, 0x85, 0x86, 0x87, 0x88, 0x89, 0x8a, 0x8b, 0x8c, 0x8d, 0x8e, 0x8f,
  0x90, 0x91, 0x92, 0x93, 0x94, 0x95, 0x96, 0x97, 0x98, 0x99, 0x9a, 0x9b, 0x9c, 0x9d, 0x9e, 0x9f,
  0xe0, 0xe1, 0xe2, 0xe3, 0xe4, 0xe5, 0xe6, 0xe7, 0xe8, 0xe9, 0xea, 0xeb, 0xec, 0xed, 0xee, 0xef,
  0xf0, 0xf1, 0xf2, 0xf3, 0xf4, 0xf5, 0xf6, 0xf7, 0xf8, 0xf9, 0xfa, 0xfb, 0xfc, 0xfd, 0xfe, 0xff]

/-- `ZDLE_TABLE[b]` -/
def zdleT (b : Nat) : Nat := ZDLE_TABLE.getD b 0

/-- `UNZDLE_TABLE[b]` -/
def unzdleT (b : Nat) : Nat := UNZDLE_TABLE.getD b 0

/-- One round of the (non-reflected) CRC-16 shift register. -/
def crc16Step (crc : Nat) : Nat :=
  if crc.testBit 15 then ((crc <<< 1) ^^^ 0x1021) % 65536 else (crc <<< 1) % 65536

def crc16Rounds : Nat → Nat → Nat
  | 0, crc => crc
  | n + 1, crc => crc16Rounds n (crc16Step crc)

/-- Feed one byte into CRC-16/XMODEM (poly 0x1021, init 0, no reflection). -/
def crc16Update (crc b : Nat) : Nat := crc16Rounds 8 (crc ^^^ ((b % 256) <<< 8))

/-- CRC-16/XMODEM over a byte list (the crate's `CRC16.checksum`). -/
def crc16 (data : List Nat) : Nat := data.foldl crc16Update 0

/-- One round of the reflected CRC-32 shift register. -/
def crc32Step (crc : Nat) : Nat :=
  if crc.testBit 0 then (crc >>> 1) ^^^ 0xEDB88320 else crc >>> 1

def crc32Rounds : Nat → Nat → Nat
  | 0, crc => crc
  | n + 1, crc => crc32Rounds n (crc32Step crc)

/-- Feed one byte into CRC-32/ISO-HDLC (reflected, init/xorout 0xFFFFFFFF). -/
def crc32Update (crc b : Nat) : Nat := crc32Rounds 8 (crc ^^^ (b % 256))

/-- CRC-32/ISO-HDLC over a byte list (the crate's `CRC32.checksum`). -/
def crc32 (data : List Nat) : Nat :=
  0xFFFFFFFF ^^^ (data.foldl crc32Update 0xFFFFFFFF)

/-- `u16::to_be_bytes` -/
def u16be (n : Nat) : List Nat := [n / 256 % 256, n % 256]

/-- `u32::to_le_bytes` -/
def u32le (n : Nat) : List Nat :=
  [n % 256, n / 256 % 256, n / 65536 % 256, n / 16777216 % 256]

/-- Lowercase hex digit character code for a nibble. -/
def hexDigit (n : Nat) : Nat := if n < 10 then 48 + n else 87 + n

/-- `hex::encode`: each byte becomes two lowercase hex digit characters. -/
def hexEncode : List Nat → List Nat
  | [] => []
  | b :: rest => hexDigit (b / 16) :: hexDigit (b % 16) :: hexEncode rest

/-- Value of one hex digit character (both cases), `err` otherwise. -/
def hexVal (c : Nat) : Res Nat :=
  if 48 ≤ c ∧ c ≤ 57 then .ok (c - 48)
  else if 97 ≤ c ∧ c ≤ 102 then .ok (c - 87)
  else if 65 ≤ c ∧ c ≤ 70 then .ok (c - 55)
  else .err

/-- `hex::decode_in_slice` followed by the halving truncation: decode
    consecutive digit pairs; odd length or a bad digit is an error. -/
def hexDecode : List Nat → Res (List Nat)
  | [] => .ok []
  | [_] => .err
  | c1 :: c2 :: rest =>
    match hexVal c1, hexVal c2, hexDecode rest with
    | .ok h, .ok l, .ok ds => .ok ((h * 16 + l) :: ds)
    | _, _, _ => .err

/-- The bytes `escape_mem` emits for one input byte. -/
def escByte (b : Nat) : List Nat :=
  if zdleT b ≠ b then [ZDLE, zdleT b] else [b]

/-- `escape_mem`: escape a byte sequence (unbounded output list; capacity
    of the destination buffer is checked at the call sites that have one). -/
def escape_mem : List Nat → List Nat
  | [] => []
  | b :: rest => escByte b ++ escape_mem rest

/-- Frame encodings. -/
inductive Encoding where
  | ZBIN | ZHEX | ZBIN32
deriving DecidableEq, Repr

def Encoding.toByte : Encoding → Nat
  | .ZBIN => 0x41
  | .ZHEX => 0x42
  | .ZBIN32 => 0x43

/-- `Encoding::try_from(u8)` -/
def Encoding.tryFrom (b : Nat) : Res Encoding :=
  if b = 0x41 then .ok .ZBIN
  else if b = 0x42 then .ok .ZHEX
  else if b = 0x43 then .ok .ZBIN32
  else .err

/-- Frame types. -/
inductive Frame where
  | ZRQINIT | ZRINIT | ZSINIT | ZACK | ZFILE | ZSKIP | ZNAK | ZABORT
  | ZFIN | ZRPOS | ZDATA | ZEOF | ZFERR | ZCRC | ZCHALLENGE | ZCOMPL
  | ZCAN | ZFREECNT | ZCOMMAND | ZSTDERR
deriving DecidableEq, Repr

def Frame.toByte : Frame → Nat
  | .ZRQINIT => 0 | .ZRINIT => 1 | .ZSINIT => 2 | .ZACK => 3
  | .ZFILE => 4 | .ZSKIP => 5 | .ZNAK => 6 | .ZABORT => 7
  | .ZFIN => 8 | .ZRPOS => 9 | .ZDATA => 10 | .ZEOF => 11
  | .ZFERR => 12 | .ZCRC => 13 | .ZCHALLENGE => 14 | .ZCOMPL => 15
  | .ZCAN => 16 | .ZFREECNT => 17 | .ZCOMMAND => 18 | .ZSTDERR => 19

/-- `Frame::try_from(u8)` -/
def Frame.tryFrom (b : Nat) : Res Frame :=
  match b with
  | 0 => .ok .ZRQINIT | 1 => .ok .ZRINIT | 2 => .ok .ZSINIT | 3 => .ok .ZACK
  | 4 => .ok .ZFILE | 5 => .ok .ZSKIP | 6 => .ok .ZNAK | 7 => .ok .ZABORT
  | 8 => .ok .ZFIN | 9 => .ok .ZRPOS | 10 => .ok .ZDATA | 11 => .ok .ZEOF
  | 12 => .ok .ZFERR | 13 => .ok .ZCRC | 14 => .ok .ZCHALLENGE
  | 15 => .ok .ZCOMPL | 16 => .ok .ZCAN | 17 => .ok .ZFREECNT
  | 18 => .ok .ZCOMMAND | 19 => .ok .ZSTDERR | _ => .err

/-- ZMODEM subpacket terminator types. -/
inductive Packet where
  | ZCRCE | ZCRCG | ZCRCQ | ZCRCW
deriving DecidableEq, Repr

def Packet.toByte : Packet → Nat
  | .ZCRCE => 0x68 | .ZCRCG => 0x69 | .ZCRCQ => 0x6a | .ZCRCW => 0x6b

/-- `Packet::try_from(u8)` -/
def Packet.tryFrom (b : Nat) : Res Packet :=
  if b = 0x68 then .ok .ZCRCE
  else if b = 0x69 then .ok .ZCRCG
  else if b = 0x6a then .ok .ZCRCQ
  else if b = 0x6b then .ok .ZCRCW
  else .err

/-- A ZMODEM header: encoding, frame kind and the four flag bytes. -/
structure Header where
  encoding : Encoding
  kind : Frame
  f0 : Nat
  f1 : Nat
  f2 : Nat
  f3 : Nat
deriving DecidableEq, Repr

def Header.new (e : Encoding) (k : Frame) : Header := ⟨e, k, 0, 0, 0, 0⟩

/-- `u32::from_le_bytes(flags)` -/
def Header.count (h : Header) : Nat :=
  h.f0 + 256 * h.f1 + 65536 * h.f2 + 16777216 * h.f3

/-- `with_count`: store a u32 as little-endian flag bytes. -/
def Header.withCount (h : Header) (c : Nat) : Header :=
  { h with f0 := c % 256, f1 := c / 256 % 256,
           f2 := c / 65536 % 256, f3 := c / 16777216 % 256 }

def Header.flagsList (h : Header) : List Nat := [h.f0, h.f1, h.f2, h.f3]

/-- `make_crc`: CRC-32 little-endian for ZBIN32, CRC-16 big-endian otherwise. -/
def make_crc (data : List Nat) (enc : Encoding) : List Nat :=
  match enc with
  | .ZBIN32 => u32le (crc32 data)
  | _ => u16be (crc16 data)

/-- `check_crc`: recompute and compare. -/
def check_crc (data crcBytes : List Nat) (enc : Encoding) : Res Unit :=
  if crcBytes = make_crc data enc then .ok () else .err

/-- `Header::unescaped_size` (`size_of::<Header>()` is 6). -/
def Header.unescapedSize (enc : Encoding) : Nat :=
  match enc with
  | .ZBIN => 6 + 2
  | .ZBIN32 => 6 + 4
  | .ZHEX => (6 + 2) * 2 - 1

/-- `Header::write`: the bytes the header serializer emits on the channel. -/
def Header.write (h : Header) : List Nat :=
  let core := h.kind.toByte :: h.flagsList
  let crc := make_crc core h.encoding
  match h.encoding with
  | .ZHEX =>
    [ZPAD, ZPAD, ZDLE] ++ escape_mem (Encoding.ZHEX.toByte :: hexEncode (core ++ crc))
      ++ [0x0d, 0x0a]
      ++ (if h.kind = .ZACK ∨ h.kind = .ZFIN then [] else [XON])
  | e => [ZPAD, ZDLE] ++ e.toByte :: escape_mem (core ++ crc)

/-- `read_byte`: one byte off the channel; empty channel is an I/O error. -/
def readByte : List Nat → Res Nat × List Nat
  | [] => (.err, [])
  | b :: r => (.ok b, r)

/-- `read_byte_unescaped`: a ZDLE makes the next byte go through the
    unescape table. -/
def readByteUnescaped (inp : List Nat) : Res Nat × List Nat :=
  match inp with
  | [] => (.err, [])
  | b :: r =>
    if b = ZDLE then
      match r with
      | [] => (.err, [])
      | b2 :: r2 => (.ok (unzdleT b2), r2)
    else (.ok b, r)

/-- Read `n` unescaped bytes (the header read loop). -/
def readUnescapedN : Nat → List Nat → Res (List Nat) × List Nat
  | 0, inp => (.ok [], inp)
  | n + 1, inp =>
    match readByteUnescaped inp with
    | (.ok b, r) =>
      match readUnescapedN n r with
      | (.ok bs, r2) => (.ok (b :: bs), r2)
      | (.err, r2) => (.err, r2)
      | (.crash, r2) => (.crash, r2)
      | (.spin, r2) => (.spin, r2)
    | (.err, r) => (.err, r)
    | (.crash, r) => (.crash, r)
    | (.spin, r) => (.spin, r)

/-- `read_zpad`: skip `ZPAD, [ZPAD,] ZDLE`. -/
def read_zpad (inp : List Nat) : Res Unit × List Nat :=
  match readByte inp with
  | (.ok b0, r0) =>
    if b0 ≠ ZPAD then (.err, r0)
    else
      match readByte r0 with
      | (.ok b1, r1) =>
        if b1 = ZPAD then
          match readByte r1 with
          | (.ok b2, r2) => if b2 = ZDLE then (.ok (), r2) else (.err, r2)
          | (_, r2) => (.err, r2)
        else if b1 = ZDLE then (.ok (), r1) else (.err, r1)
      | (_, r1) => (.err, r1)
  | (_, r0) => (.err, r0)

/-- `Header::read`: parse encoding byte, read the remaining escaped bytes,
    hex-decode for ZHEX, verify the CRC, parse the kind byte.  On an error
    the already-consumed part of the channel stays consumed. -/
def Header.read (inp : List Nat) : Res Header × List Nat :=
  match readByte inp with
  | (.ok encB, r0) =>
    match Encoding.tryFrom encB with
    | .ok enc =>
      match readUnescapedN (Header.unescapedSize enc - 1) r0 with
      | (.ok raw, r1) =>
        match (if enc = .ZHEX then hexDecode raw else .ok raw) with
        | .ok out =>
          match check_crc (out.take 5) (out.drop 5) enc with
          | .ok _ =>
            match Frame.tryFrom (out.getD 0 0) with
            | .ok kind =>
              (.ok ⟨enc, kind, out.getD 1 0, out.getD 2 0, out.getD 3 0, out.getD 4 0⟩, r1)
            | .err => (.err, r1)
            | .crash => (.crash, r1)
            | .spin => (.spin, r1)
          | .err => (.err, r1)
          | .crash => (.crash, r1)
          | .spin => (.spin, r1)
        | .err => (.err, r1)
        | .crash => (.crash, r1)
        | .spin => (.spin, r1)
      | (.err, r1) => (.err, r1)
      | (.crash, r1) => (.crash, r1)
      | (.spin, r1) => (.spin, r1)
    | _ => (.err, r0)
  | (_, r0) => (.err, r0)

/-- Capacity of the receive buffer (`RxBuffer = ArrayVec<[u8; 2048]>`). -/
def RX_CAP : Nat := 2048

/-- The scan loop of `read_subpacket`: collect unescaped bytes until a
    `ZDLE` + subpacket-kind terminator; every `push` into the 2048-byte
    `ArrayVec` panics (`crash`) when the buffer is full. -/
def readSubpacketLoop : List Nat → List Nat → (Res (Packet × List Nat)) × List Nat
  | [], _ => (.err, [])
  | b :: r, buf =>
    if b = ZDLE then
      match r with
      | [] => (.err, [])
      | b2 :: r2 =>
        match Packet.tryFrom b2 with
        | .ok kind =>
          if buf.length ≥ RX_CAP then (.crash, r2)
          else (.ok (kind, buf ++ [kind.toByte]), r2)
        | _ =>
          if buf.length ≥ RX_CAP then (.crash, r2)
          else readSubpacketLoop r2 (buf ++ [unzdleT b2])
    else
      if buf.length ≥ RX_CAP then (.crash, r)
      else readSubpacketLoop r (buf ++ [b])

/-- `read_subpacket`: scan for the terminator, read the (escaped) CRC bytes,
    verify and drop the pushed kind byte.  Returns the terminator, the bytes
    left in the receive buffer, and the rest of the channel. -/
def read_subpacket (enc : Encoding) (inp : List Nat) :
    Res (Packet × List Nat) × List Nat :=
  match readSubpacketLoop inp [] with
  | (.ok (kind, buf), r0) =>
    let crcLen := if enc = .ZBIN32 then 4 else 2
    match readUnescapedN crcLen r0 with
    | (.ok crcB, r1) =>
      match check_crc buf crcB enc with
      | .ok _ => (.ok (kind, buf.dropLast), r1)
      | .err => (.err, r1)
      | .crash => (.crash, r1)
      | .spin => (.spin, r1)
    | (.err, r1) => (.err, r1)
    | (.crash, r1) => (.crash, r1)
    | (.spin, r1) => (.spin, r1)
  | (.err, r0) => (.err, r0)
  | (.crash, r0) => (.crash, r0)
  | (.spin, r0) => (.spin, r0)

/-- `write_subpacket`: escape the payload (into a 2048-byte scratch buffer,
    panicking when the escaped form does not fit), then emit
    `escaped payload ++ [ZDLE, kind] ++ escaped CRC`.  The CRC covers
    `payload ++ [kind]`.  The ZHEX arm is `unimplemented!()`. -/
def write_subpacket (enc : Encoding) (kind : Packet) (data : List Nat) :
    Res (List Nat) :=
  let esc := escape_mem data
  if esc.length > 2 * SUBPACKET_SIZE then .crash
  else
    match enc with
    | .ZBIN32 =>
      .ok (esc ++ [ZDLE, kind.toByte] ++ escape_mem (u32le (crc32 (data ++ [kind.toByte]))))
    | .ZBIN =>
      .ok (esc ++ [ZDLE, kind.toByte] ++ escape_mem (u16be (crc16 (data ++ [kind.toByte]))))
    | .ZHEX => .crash

/-! ### Byte-level helper lemmas -/

/-- All entries of a byte list are in range. -/
def bytesOK (l : List Nat) : Prop := ∀ b ∈ l, b < 256

instance (l : List Nat) : Decidable (bytesOK l) := List.decidableBAll _ l

theorem bytesOK_nil : bytesOK [] := by intro b hb; cases hb

theorem bytesOK_cons {b : Nat} {l : List Nat} (hb : b < 256) (hl : bytesOK l) :
    bytesOK (b :: l) := by
  intro x hx
  rcases List.mem_cons.mp hx with h | h
  · exact h ▸ hb
  · exact hl x h

theorem bytesOK_append {l1 l2 : List Nat} (h1 : bytesOK l1) (h2 : bytesOK l2) :
    bytesOK (l1 ++ l2) := by
  intro x hx
  rcases List.mem_append.mp hx with h | h
  · exact h1 x h
  · exact h2 x h

theorem tbl_unzdle_zdle : ∀ b < 256, zdleT b ≠ b → unzdleT (zdleT b) = b := by decide

theorem tbl_plain_ne_zdle : ∀ b < 256, zdleT b = b → b ≠ ZDLE := by decide

theorem tbl_esc_not_packet : ∀ b < 256, zdleT b ≠ b → Packet.tryFrom (zdleT b) = .err := by
  decide

/-- Reading back one escaped byte recovers it. -/
theorem readByteUnescaped_escByte {b : Nat} (hb : b < 256) (rest : List Nat) :
    readByteUnescaped (escByte b ++ rest) = (.ok b, rest) := by
  by_cases h : zdleT b = b
  · have hne : b ≠ ZDLE := tbl_plain_ne_zdle b hb h
    simp [escByte, h, readByteUnescaped, hne]
  · simp [escByte, h, readByteUnescaped, tbl_unzdle_zdle b hb h]

/-- Reading back an escaped byte sequence recovers it (`escape_mem` /
    `read_byte_unescaped` round trip). -/
theorem readUnescapedN_escape (data : List Nat) (rest : List Nat) (hb : bytesOK data) :
    readUnescapedN data.length (escape_mem data ++ rest) = (.ok data, rest) := by
  induction data with
  | nil => simp [readUnescapedN, escape_mem]
  | cons b bs ih =>
    have hb0 : b < 256 := hb b (List.mem_cons_self _ _)
    have hbs : bytesOK bs := fun x hx => hb x (List.mem_cons_of_mem _ hx)
    have h1 := readByteUnescaped_escByte hb0 (escape_mem bs ++ rest)
    simp only [escape_mem, List.length_cons, List.append_assoc, readUnescapedN, h1,
      ih hbs]

/-- Reading unescaped bytes from a ZDLE-free stream consumes them verbatim. -/
theorem readUnescapedN_plain (bs : List Nat) (rest : List Nat)
    (h : ∀ b ∈ bs, b ≠ ZDLE) :
    readUnescapedN bs.length (bs ++ rest) = (.ok bs, rest) := by
  induction bs with
  | nil => simp [readUnescapedN]
  | cons b tl ih =>
    have hb : b ≠ ZDLE := h b (List.mem_cons_self _ _)
    have htl : ∀ x ∈ tl, x ≠ ZDLE := fun x hx => h x (List.mem_cons_of_mem _ hx)
    simp only [List.length_cons, List.cons_append, readUnescapedN, readByteUnescaped,
      if_neg hb, ih htl]

theorem hexVal_hexDigit : ∀ n < 16, hexVal (hexDigit n) = .ok n := by decide

theorem hexDigit_lt : ∀ n < 16, hexDigit n < 256 := by decide

theorem hexDigit_self : ∀ n < 16, zdleT (hexDigit n) = hexDigit n := by decide

theorem hexDigit_ne_zdle : ∀ n < 16, hexDigit n ≠ ZDLE := by decide

/-- Decode inverts encode on byte lists. -/
theorem hexDecode_hexEncode (xs : List Nat) (hb : bytesOK xs) :
    hexDecode (hexEncode xs) = .ok xs := by
  induction xs with
  | nil => rfl
  | cons b tl ih =>
    have hb0 : b < 256 := hb b (List.mem_cons_self _ _)
    have htl : bytesOK tl := fun x hx => hb x (List.mem_cons_of_mem _ hx)
    have hhi : b / 16 < 16 := by omega
    have hlo : b % 16 < 16 := by omega
    have hbeq : b / 16 * 16 + b % 16 = b := by omega
    simp only [hexEncode, hexDecode, hexVal_hexDigit _ hhi, hexVal_hexDigit _ hlo, ih htl,
      hbeq]

theorem hexEncode_length (xs : List Nat) : (hexEncode xs).length = 2 * xs.length := by
  induction xs with
  | nil => rfl
  | cons b tl ih => simp [hexEncode, ih]; omega

theorem hexEncode_bytesOK (xs : List Nat) (hb : bytesOK xs) : bytesOK (hexEncode xs) := by
  induction xs with
  | nil => exact bytesOK_nil
  | cons b tl ih =>
    have hb0 : b < 256 := hb b (List.mem_cons_self _ _)
    have htl : bytesOK tl := fun x hx => hb x (List.mem_cons_of_mem _ hx)
    exact bytesOK_cons (hexDigit_lt _ (by omega))
      (bytesOK_cons (hexDigit_lt _ (by omega)) (ih htl))

theorem hexEncode_ne_zdle (xs : List Nat) (hb : bytesOK xs) :
    ∀ b ∈ hexEncode xs, b ≠ ZDLE := by
  induction xs with
  | nil => intro b hbm; cases hbm
  | cons b tl ih =>
    have hb0 : b < 256 := hb b (List.mem_cons_self _ _)
    have htl : bytesOK tl := fun x hx => hb x (List.mem_cons_of_mem _ hx)
    intro x hx
    rcases List.mem_cons.mp hx with h | hx2
    · exact h ▸ hexDigit_ne_zdle _ (by omega)
    rcases List.mem_cons.mp hx2 with h | hx3
    · exact h ▸ hexDigit_ne_zdle _ (by omega)
    · exact ih htl x hx3

/-- Escaping a sequence of self-mapping bytes is the identity. -/
theorem escape_mem_self (xs : List Nat) (h : ∀ b ∈ xs, zdleT b = b) :
    escape_mem xs = xs := by
  induction xs with
  | nil => rfl
  | cons b tl ih =>
    have hb : zdleT b = b := h b (List.mem_cons_self _ _)
    have htl : ∀ x ∈ tl, zdleT x = x := fun x hx => h x (List.mem_cons_of_mem _ hx)
    simp [escape_mem, escByte, hb, ih htl]

theorem frame_tryFrom_toByte (k : Frame) : Frame.tryFrom k.toByte = .ok k := by
  cases k <;> rfl

theorem frame_toByte_lt (k : Frame) : k.toByte < 256 := by cases k <;> decide

theorem encoding_tryFrom_toByte (e : Encoding) : Encoding.tryFrom e.toByte = .ok e := by
  cases e <;> rfl

theorem packet_tryFrom_toByte (p : Packet) : Packet.tryFrom p.toByte = .ok p := by
  cases p <;> rfl

theorem packet_toByte_lt (p : Packet) : p.toByte < 256 := by cases p <;> decide

theorem u16be_bytesOK (n : Nat) : bytesOK (u16be n) := by
  intro b hb
  simp only [u16be, List.mem_cons, List.mem_singleton] at hb
  rcases hb with h | h | h <;> first | (subst h; omega) | cases h

theorem u32le_bytesOK (n : Nat) : bytesOK (u32le n) := by
  intro b hb
  simp only [u32le, List.mem_cons, List.mem_singleton] at hb
  rcases hb with h | h | h | h | h <;> first | (subst h; omega) | cases h

theorem make_crc_bytesOK (data : List Nat) (enc : Encoding) : bytesOK (make_crc data enc) := by
  cases enc <;> simp only [make_crc] <;>
    first | exact u16be_bytesOK _ | exact u32le_bytesOK _

theorem check_crc_make (data : List Nat) (enc : Encoding) :
    check_crc data (make_crc data enc) enc = .ok () := by
  simp [check_crc]

/-- The bytes a ZHEX header leaves on the channel after the escaped part:
    CR, LF, and XON unless the kind is ZACK or ZFIN. -/
def Header.trailer (h : Header) : List Nat :=
  match h.encoding with
  | .ZHEX => [0x0d, 0x0a] ++ (if h.kind = .ZACK ∨ h.kind = .ZFIN then [] else [XON])
  | _ => []

theorem hexEncode_self (xs : List Nat) (hb : bytesOK xs) :
    ∀ b ∈ hexEncode xs, zdleT b = b := by
  induction xs with
  | nil => intro b hbm; cases hbm
  | cons b tl ih =>
    have hb0 : b < 256 := hb b (List.mem_cons_self _ _)
    have htl : bytesOK tl := fun x hx => hb x (List.mem_cons_of_mem _ hx)
    intro x hx
    rcases List.mem_cons.mp hx with h | hx2
    · exact h ▸ hexDigit_self _ (by omega)
    rcases List.mem_cons.mp hx2 with h | hx3
    · exact h ▸ hexDigit_self _ (by omega)
    · exact ih htl x hx3

/-- The unescaped core of a header on the wire: kind, flags, CRC. -/
def Header.core (h : Header) : List Nat :=
  h.kind.toByte :: h.flagsList ++ make_crc (h.kind.toByte :: h.flagsList) h.encoding

theorem Header.core_bytesOK (h : Header) (h0 : h.f0 < 256) (h1 : h.f1 < 256)
    (h2 : h.f2 < 256) (h3 : h.f3 < 256) : bytesOK h.core := by
  refine bytesOK_cons (frame_toByte_lt _) (bytesOK_append ?_ (make_crc_bytesOK _ _))
  intro x hx
  simp only [Header.flagsList, List.mem_cons, List.mem_singleton] at hx
  rcases hx with h | h | h | h | h
  · exact h ▸ h0
  · exact h ▸ h1
  · exact h ▸ h2
  · exact h ▸ h3
  · cases h

theorem Header.core_length (h : Header) :
    h.core.length = if h.encoding = .ZBIN32 then 9 else 7 := by
  obtain ⟨e, k, f0, f1, f2, f3⟩ := h
  cases e <;> simp [Header.core, Header.flagsList, make_crc, u16be, u32le]

theorem hexBranch_zbin (x : List Nat) :
    (if Encoding.ZBIN = Encoding.ZHEX then hexDecode x else Res.ok x) = Res.ok x :=
  if_neg (by decide)

theorem hexBranch_zbin32 (x : List Nat) :
    (if Encoding.ZBIN32 = Encoding.ZHEX then hexDecode x else Res.ok x) = Res.ok x :=
  if_neg (by decide)

theorem hexBranch_zhex (x : List Nat) :
    (if Encoding.ZHEX = Encoding.ZHEX then hexDecode x else Res.ok x) = hexDecode x :=
  if_pos rfl

/-- Reading back a written header: `read_zpad` consumes the preamble and
    `Header::read` returns an equal header, leaving the ZHEX trailer (and
    anything after the frame) on the channel. -/
theorem header_write_read (h : Header) (h0 : h.f0 < 256) (h1 : h.f1 < 256)
    (h2 : h.f2 < 256) (h3 : h.f3 < 256) (rest : List Nat) :
    ∃ mid, read_zpad (h.write ++ rest) = (.ok (), mid) ∧
      Header.read mid = (.ok h, h.trailer ++ rest) := by
  obtain ⟨e, k, f0, f1, f2, f3⟩ := h
  have hcore : bytesOK (Header.mk e k f0 f1 f2 f3).core :=
    Header.core_bytesOK _ h0 h1 h2 h3
  cases e with
  | ZBIN =>
    refine ⟨0x41 :: (escape_mem (Header.mk .ZBIN k f0 f1 f2 f3).core ++ rest), ?_, ?_⟩
    · simp [Header.write, read_zpad, readByte, ZPAD, ZDLE, Header.core, Header.flagsList,
        Encoding.toByte]
    · have hlen : (Header.mk .ZBIN k f0 f1 f2 f3).core.length = 7 := by
        simp [Header.core_length]
      have hread : readUnescapedN 7 (escape_mem (Header.mk .ZBIN k f0 f1 f2 f3).core ++ rest)
          = (.ok (Header.mk .ZBIN k f0 f1 f2 f3).core, rest) := by
        have := readUnescapedN_escape (Header.mk .ZBIN k f0 f1 f2 f3).core rest hcore
        rwa [hlen] at this
      simp only [Header.read, readByte, Encoding.tryFrom, Header.unescapedSize]
      norm_num
      simp only [hread]
      simp only [Header.core, Header.flagsList, Header.trailer]
      simp only [hexBranch_zbin]
      simp [frame_tryFrom_toByte k, check_crc_make]
  | ZBIN32 =>
    refine ⟨0x43 :: (escape_mem (Header.mk .ZBIN32 k f0 f1 f2 f3).core ++ rest), ?_, ?_⟩
    · simp [Header.write, read_zpad, readByte, ZPAD, ZDLE, Header.core, Header.flagsList,
        Encoding.toByte]
    · have hlen : (Header.mk .ZBIN32 k f0 f1 f2 f3).core.length = 9 := by
        simp [Header.core_length]
      have hread : readUnescapedN 9 (escape_mem (Header.mk .ZBIN32 k f0 f1 f2 f3).core ++ rest)
          = (.ok (Header.mk .ZBIN32 k f0 f1 f2 f3).core, rest) := by
        have := readUnescapedN_escape (Header.mk .ZBIN32 k f0 f1 f2 f3).core rest hcore
        rwa [hlen] at this
      simp only [Header.read, readByte, Encoding.tryFrom, Header.unescapedSize]
      norm_num
      simp only [hread]
      simp only [Header.core, Header.flagsList, Header.trailer]
      simp only [hexBranch_zbin32]
      simp [frame_tryFrom_toByte k, check_crc_make]
  | ZHEX =>
    have hx := hexEncode_self (Header.mk .ZHEX k f0 f1 f2 f3).core hcore
    have hxne := hexEncode_ne_zdle (Header.mk .ZHEX k f0 f1 f2 f3).core hcore
    have hesc : escape_mem (0x42 :: hexEncode (Header.mk .ZHEX k f0 f1 f2 f3).core)
        = 0x42 :: hexEncode (Header.mk .ZHEX k f0 f1 f2 f3).core := by
      refine escape_mem_self _ ?_
      intro b hb
      rcases List.mem_cons.mp hb with hb | hb
      · subst hb; decide
      · exact hx b hb
    refine ⟨0x42 :: (hexEncode (Header.mk .ZHEX k f0 f1 f2 f3).core
        ++ ((Header.mk .ZHEX k f0 f1 f2 f3).trailer ++ rest)), ?_, ?_⟩
    · simp only [Header.write, Encoding.toByte, Header.core, Header.flagsList] at hesc ⊢
      rw [hesc]
      simp [read_zpad, readByte, ZPAD, ZDLE, Header.trailer, Header.core, Header.flagsList]
    · have hlen : (hexEncode (Header.mk .ZHEX k f0 f1 f2 f3).core).length = 14 := by
        rw [hexEncode_length]
        simp [Header.core_length]
      have hread : readUnescapedN 14 (hexEncode (Header.mk .ZHEX k f0 f1 f2 f3).core
          ++ ((Header.mk .ZHEX k f0 f1 f2 f3).trailer ++ rest))
          = (.ok (hexEncode (Header.mk .ZHEX k f0 f1 f2 f3).core),
             (Header.mk .ZHEX k f0 f1 f2 f3).trailer ++ rest) := by
        have := readUnescapedN_plain (hexEncode (Header.mk .ZHEX k f0 f1 f2 f3).core)
          ((Header.mk .ZHEX k f0 f1 f2 f3).trailer ++ rest) hxne
        rwa [hlen] at this
      have hdec := hexDecode_hexEncode (Header.mk .ZHEX k f0 f1 f2 f3).core hcore
      simp only [Header.read, readByte, Encoding.tryFrom, Header.unescapedSize]
      norm_num
      simp only [hread]
      simp only [hexBranch_zhex, hdec]
      simp only [Header.core, Header.flagsList]
      simp [frame_tryFrom_toByte k, check_crc_make, Header.trailer]

/-! ### Claim C2: the escape table -/

/-- C2 counterexample: the claim says the table sends ZDLE = 0x18 to 0x68 and
    every byte outside its nine-entry list to itself.  In the code
    `ZDLE_TABLE[0x18] = 0x58` (0x18 XOR 0x40, not 0x68) and `ZDLE_TABLE[0x0D] =
    0x4D ≠ 0x0D` (CR is escaped too, as is 0x8D). -/
theorem c2_counterexample :
    zdleT 0x18 = 0x58 ∧ ¬(zdleT 0x18 = 0x68) ∧ zdleT 0x0d = 0x4d ∧ ¬(zdleT 0x0d = 0x0d) := by
  decide

/-- C2 amended: the 256-entry escape table maps exactly the bytes 0x0D, 0x10,
    0x11, 0x13, ZDLE = 0x18, 0x8D, 0x90, 0x91, 0x93 to themselves XORed with
    0x40, 0x7F to 0x6C and 0xFF to 0x6D; every other byte maps to itself, and
    the escaper emits `ZDLE, table[b]` for remapped bytes and `b` verbatim
    otherwise. -/
theorem c2_escape_table :
    ∀ b : Fin 256,
      (zdleT b = (if (b : Nat) ∈ [0x0d, 0x10, 0x11, 0x13, 0x18, 0x8d, 0x90, 0x91, 0x93]
        then (b : Nat) ^^^ 0x40
        else if (b : Nat) = 0x7f then 0x6c
        else if (b : Nat) = 0xff then 0x6d
        else (b : Nat))) ∧
      escape_mem [(b : Nat)] =
        (if zdleT b ≠ b then [ZDLE, zdleT b] else [(b : Nat)]) := by
  decide

/-! ### Claim C3: header round trip -/

/-- C3: for every encoding, every frame kind and every 4-byte flags value,
    writing a header and reading the produced byte sequence back (consuming
    the ZPAD/ZDLE preamble with `read_zpad`, then `Header::read`) yields a
    header equal to the one written. -/
theorem c3_header_round_trip (e : Encoding) (k : Frame) (f0 f1 f2 f3 : Nat)
    (h0 : f0 < 256) (h1 : f1 < 256) (h2 : f2 < 256) (h3 : f3 < 256) :
    ∃ mid, read_zpad (Header.write ⟨e, k, f0, f1, f2, f3⟩) = (.ok (), mid) ∧
      (Header.read mid).1 = .ok ⟨e, k, f0, f1, f2, f3⟩ := by
  obtain ⟨mid, hz, hr⟩ := header_write_read ⟨e, k, f0, f1, f2, f3⟩ h0 h1 h2 h3 []
  rw [List.append_nil] at hz
  exact ⟨mid, hz, by rw [hr]⟩

/-- C3 witness: a concrete instance of the round trip. -/
theorem c3_header_round_trip_witness :
    ∃ mid, read_zpad (Header.write ⟨.ZBIN32, .ZRINIT, 10, 11, 12, 13⟩) = (.ok (), mid) ∧
      (Header.read mid).1 = .ok ⟨.ZBIN32, .ZRINIT, 10, 11, 12, 13⟩ :=
  c3_header_round_trip .ZBIN32 .ZRINIT 10 11 12 13 (by decide) (by decide) (by decide)
    (by decide)

/-! ### Claim C5: header read budget -/

/-- C5 counterexample: the claim says `Header::read` consumes exactly 17
    escaped bytes after a ZHEX encoding byte; on this well-formed ZHEX header
    (the crate's own test vector) it consumes 14 and leaves the next three
    bytes untouched. -/
theorem c5_counterexample :
    Header.read (0x42 :: [48, 49, 48, 49, 48, 50, 48, 51, 48, 52, 97, 55, 53, 50]
        ++ [7, 7, 7])
      = (.ok ⟨.ZHEX, .ZRINIT, 1, 2, 3, 4⟩, [7, 7, 7]) ∧
    [(48 : Nat), 49, 48, 49, 48, 50, 48, 51, 48, 52, 97, 55, 53, 50].length = 14 ∧
    (14 : Nat) ≠ 17 := by
  refine ⟨by decide, by decide, by decide⟩

/-- C5 amended: after the encoding byte, `Header::read` consumes exactly
    `unescaped_size(enc) - 1` escaped bytes — 7 for ZBIN, 9 for ZBIN32 and 14
    (not 17) for ZHEX — before CRC verification and kind parsing; whatever
    those checks decide, the channel position ends right after that budget. -/
theorem c5_read_budget :
    (Header.unescapedSize .ZBIN - 1 = 7 ∧ Header.unescapedSize .ZBIN32 - 1 = 9 ∧
      Header.unescapedSize .ZHEX - 1 = 14) ∧
    ∀ (enc : Encoding) (bs rest : List Nat), (∀ b ∈ bs, b ≠ ZDLE) →
      bs.length = Header.unescapedSize enc - 1 →
      (Header.read (enc.toByte :: bs ++ rest)).2 = rest := by
  refine ⟨⟨rfl, rfl, rfl⟩, ?_⟩
  intro enc bs rest hne hlen
  have hr : readUnescapedN (Header.unescapedSize enc - 1) (bs ++ rest) = (.ok bs, rest) := by
    rw [← hlen]
    exact readUnescapedN_plain bs rest hne
  have hcons : readByte (enc.toByte :: (bs ++ rest)) = (.ok enc.toByte, bs ++ rest) := rfl
  simp only [Header.read, List.cons_append, hcons, encoding_tryFrom_toByte, hr]
  split
  · split
    · split <;> rfl
    · rfl
    · rfl
    · rfl
  · rfl
  · rfl
  · rfl

/-- C5 witness: a ZBIN stream where exactly 7 bytes after the encoding byte
    are consumed. -/
theorem c5_read_budget_witness :
    (Header.read (Encoding.ZBIN.toByte :: [1, 1, 1, 1, 1, 1, 1] ++ [5, 6])).2 = [5, 6] :=
  c5_read_budget.2 .ZBIN [1, 1, 1, 1, 1, 1, 1] [5, 6] (by decide) (by decide)

/-! ### Claim C6: ZHEX subpackets -/

/-- C6 counterexample: the claim says `write_subpacket` with ZHEX returns the
    `InvalidData` error rather than panicking; in the code the ZHEX arm is
    `unimplemented!()`, which panics (modeled as `crash`, not `err`). -/
theorem c6_counterexample :
    write_subpacket .ZHEX .ZCRCE [] = .crash ∧ write_subpacket .ZHEX .ZCRCE [] ≠ .err := by
  refine ⟨by decide, by decide⟩

/-- C6 amended: for every terminator kind and payload, `write_subpacket` with
    encoding ZHEX panics (`unimplemented!()`), it never returns. -/
theorem c6_zhex_unimplemented (kind : Packet) (data : List Nat) :
    write_subpacket .ZHEX kind data = .crash := by
  by_cases h : (escape_mem data).length > 2 * SUBPACKET_SIZE <;>
    simp [write_subpacket, h]

/-! ### Claim C8: read_zpad acceptance -/

/-- C8: `read_zpad` succeeds exactly on streams starting `[ZPAD, ZDLE]` or
    `[ZPAD, ZPAD, ZDLE]`, and on every other 2- or 3-byte prefix (including
    `[ZPAD, XON]` and `[ZPAD, ZPAD, XON]`) it returns the `InvalidData`
    error. -/
theorem c8_read_zpad (b0 b1 b2 : Nat) (rest : List Nat) :
    (((read_zpad (b0 :: b1 :: b2 :: rest)).1 = .ok ()) ↔
      ((b0 = ZPAD ∧ b1 = ZDLE) ∨ (b0 = ZPAD ∧ b1 = ZPAD ∧ b2 = ZDLE))) ∧
    ((read_zpad (b0 :: b1 :: b2 :: rest)).1 ≠ .ok () →
      (read_zpad (b0 :: b1 :: b2 :: rest)).1 = .err) := by
  unfold read_zpad readByte
  by_cases h0 : b0 = ZPAD
  · subst h0
    by_cases h1p : b1 = ZPAD
    · subst h1p
      by_cases h2d : b2 = ZDLE
      · subst h2d
        simp [ZPAD, ZDLE]
      · simp only [ZPAD, ZDLE] at h2d ⊢
        simp [h2d]
    · by_cases h1d : b1 = ZDLE
      · subst h1d
        simp [ZPAD, ZDLE]
      · simp only [ZPAD, ZDLE] at h1p h1d ⊢
        simp [h1p, h1d]
  · simp [h0]

/-! ### Subpacket round trip (claim C4) -/

/-- The terminator scan of `read_subpacket` run on an escaped payload
    followed by `ZDLE, kind`: it recovers the payload, pushes the kind byte
    and stops, provided the receive buffer has room. -/
theorem readSubpacketLoop_escape (data : List Nat) (kind : Packet) (rest acc : List Nat)
    (hb : bytesOK data) (hcap : acc.length + data.length + 1 ≤ RX_CAP) :
    readSubpacketLoop (escape_mem data ++ ([ZDLE, kind.toByte] ++ rest)) acc
      = (.ok (kind, acc ++ (data ++ [kind.toByte])), rest) := by
  induction data generalizing acc with
  | nil =>
    have hlt : ¬ (acc.length ≥ RX_CAP) := by
      simp only [List.length_nil] at hcap
      omega
    simp [escape_mem, readSubpacketLoop, packet_tryFrom_toByte kind, hlt]
  | cons b bs ih =>
    have hb0 : b < 256 := hb b (List.mem_cons_self _ _)
    have hbs : bytesOK bs := fun x hx => hb x (List.mem_cons_of_mem _ hx)
    have hlt : ¬ (acc.length ≥ RX_CAP) := by
      simp only [List.length_cons] at hcap
      omega
    have hcap2 : (acc ++ [b]).length + bs.length + 1 ≤ RX_CAP := by
      simp only [List.length_append, List.length_cons, List.length_nil] at hcap ⊢
      omega
    by_cases h : zdleT b = b
    · have hne : b ≠ ZDLE := tbl_plain_ne_zdle b hb0 h
      have hrec := ih (acc ++ [b]) hbs hcap2
      have hstream : escape_mem (b :: bs) ++ ([ZDLE, kind.toByte] ++ rest)
          = b :: (escape_mem bs ++ ([ZDLE, kind.toByte] ++ rest)) := by
        simp [escape_mem, escByte, h]
      simp only [List.cons_append, List.nil_append] at hrec
      rw [hstream, readSubpacketLoop.eq_def]
      simp [hne, hlt, hrec, List.append_assoc]
    · have hpkt : Packet.tryFrom (zdleT b) = .err := tbl_esc_not_packet b hb0 h
      have hinv : unzdleT (zdleT b) = b := tbl_unzdle_zdle b hb0 h
      have hrec := ih (acc ++ [b]) hbs hcap2
      have hstream : escape_mem (b :: bs) ++ ([ZDLE, kind.toByte] ++ rest)
          = ZDLE :: zdleT b :: (escape_mem bs ++ ([ZDLE, kind.toByte] ++ rest)) := by
        simp [escape_mem, escByte, h]
      simp only [List.cons_append, List.nil_append] at hrec
      rw [hstream, readSubpacketLoop.eq_def]
      simp only [ZDLE] at hpkt hrec ⊢
      simp [hpkt, hlt, hinv, hrec, List.append_assoc]

/-- Subpacket round trip: writing then reading recovers the terminator and
    the payload byte for byte, for the binary encodings, whenever the escaped
    payload fits the 2048-byte transmit scratch buffer and the payload plus
    terminator fit the 2048-byte receive buffer. -/
theorem subpacket_write_read (enc : Encoding) (kind : Packet) (data rest : List Nat)
    (henc : enc = .ZBIN ∨ enc = .ZBIN32) (hb : bytesOK data)
    (hwcap : (escape_mem data).length ≤ 2 * SUBPACKET_SIZE)
    (hrcap : data.length + 1 ≤ RX_CAP) :
    ∃ out, write_subpacket enc kind data = .ok out ∧
      read_subpacket enc (out ++ rest) = (.ok (kind, data), rest) := by
  have hnot : ¬ ((escape_mem data).length > 2 * SUBPACKET_SIZE) := by omega
  have hdl : (data ++ [kind.toByte]).dropLast = data := by
    simp
  rcases henc with rfl | rfl
  · have hcrcOK : bytesOK (u16be (crc16 (data ++ [kind.toByte]))) := u16be_bytesOK _
    have hloop := readSubpacketLoop_escape data kind
      (escape_mem (u16be (crc16 (data ++ [kind.toByte]))) ++ rest) [] hb
      (by simp only [List.length_nil]; omega)
    have hcrcRead : readUnescapedN 2
        (escape_mem (u16be (crc16 (data ++ [kind.toByte]))) ++ rest)
        = (.ok (u16be (crc16 (data ++ [kind.toByte]))), rest) := by
      have := readUnescapedN_escape (u16be (crc16 (data ++ [kind.toByte]))) rest hcrcOK
      simpa [u16be] using this
    have hchk : check_crc (data ++ [kind.toByte])
        (u16be (crc16 (data ++ [kind.toByte]))) .ZBIN = .ok () :=
      check_crc_make (data ++ [kind.toByte]) .ZBIN
    refine ⟨escape_mem data ++ [ZDLE, kind.toByte]
      ++ escape_mem (u16be (crc16 (data ++ [kind.toByte]))), ?_, ?_⟩
    · simp [write_subpacket, hnot]
    · have harr : (escape_mem data ++ [ZDLE, kind.toByte]
          ++ escape_mem (u16be (crc16 (data ++ [kind.toByte])))) ++ rest
          = escape_mem data ++ ([ZDLE, kind.toByte]
            ++ (escape_mem (u16be (crc16 (data ++ [kind.toByte]))) ++ rest)) := by
        simp [List.append_assoc]
      rw [harr]
      simp only [read_subpacket, hloop, List.nil_append]
      simp only [show ((if (Encoding.ZBIN = Encoding.ZBIN32) then (4 : Nat) else 2)) = 2
        from rfl]
      simp only [hcrcRead, hchk, hdl]
  · have hcrcOK : bytesOK (u32le (crc32 (data ++ [kind.toByte]))) := u32le_bytesOK _
    have hloop := readSubpacketLoop_escape data kind
      (escape_mem (u32le (crc32 (data ++ [kind.toByte]))) ++ rest) [] hb
      (by simp only [List.length_nil]; omega)
    have hcrcRead : readUnescapedN 4
        (escape_mem (u32le (crc32 (data ++ [kind.toByte]))) ++ rest)
        = (.ok (u32le (crc32 (data ++ [kind.toByte]))), rest) := by
      have := readUnescapedN_escape (u32le (crc32 (data ++ [kind.toByte]))) rest hcrcOK
      simpa [u32le] using this
    have hchk : check_crc (data ++ [kind.toByte])
        (u32le (crc32 (data ++ [kind.toByte]))) .ZBIN32 = .ok () :=
      check_crc_make (data ++ [kind.toByte]) .ZBIN32
    refine ⟨escape_mem data ++ [ZDLE, kind.toByte]
      ++ escape_mem (u32le (crc32 (data ++ [kind.toByte]))), ?_, ?_⟩
    · simp [write_subpacket, hnot]
    · have harr : (escape_mem data ++ [ZDLE, kind.toByte]
          ++ escape_mem (u32le (crc32 (data ++ [kind.toByte])))) ++ rest
          = escape_mem data ++ ([ZDLE, kind.toByte]
            ++ (escape_mem (u32le (crc32 (data ++ [kind.toByte]))) ++ rest)) := by
        simp [List.append_assoc]
      rw [harr]
      simp only [read_subpacket, hloop, List.nil_append, if_true]
      simp [hcrcRead, hchk, hdl]

/-! ### Claim C4: subpacket round trip -/

/-- C4 counterexample: the claim quantifies over every payload byte string,
    but a payload of 1025 bytes that all need escaping escapes to 2050 bytes,
    which overflows the 2048-byte scratch buffer `escape_mem` writes into, so
    `write_subpacket` panics instead of producing a stream to read back. -/
theorem c4_counterexample :
    write_subpacket .ZBIN .ZCRCE (List.replicate 1025 0x18) = .crash := by
  have h18 : escByte 0x18 = [ZDLE, 0x58] := by decide
  have hlen : ∀ n, (escape_mem (List.replicate n 0x18)).length = 2 * n := by
    intro n
    induction n with
    | zero => rfl
    | succ m ih =>
      rw [List.replicate_succ]
      simp only [escape_mem, h18, List.length_append, ih, List.length_cons,
        List.length_nil]
      omega
  have hbig : (escape_mem (List.replicate 1025 0x18)).length > 2 * SUBPACKET_SIZE := by
    rw [hlen]
    norm_num [SUBPACKET_SIZE]
  simp only [write_subpacket]
  rw [if_pos hbig]

/-- C4 amended: for the binary encodings, every terminator kind and every
    payload whose escaped form fits the 2048-byte transmit buffer and whose
    length plus the terminator byte fits the 2048-byte receive buffer,
    `write_subpacket` followed by `read_subpacket` returns Ok with the same
    terminator and leaves the receive buffer holding exactly the original
    payload. -/
theorem c4_subpacket_round_trip (enc : Encoding) (kind : Packet) (data rest : List Nat)
    (henc : enc = .ZBIN ∨ enc = .ZBIN32) (hb : bytesOK data)
    (hwcap : (escape_mem data).length ≤ 2 * SUBPACKET_SIZE)
    (hrcap : data.length + 1 ≤ RX_CAP) :
    ∃ out, write_subpacket enc kind data = .ok out ∧
      read_subpacket enc (out ++ rest) = (.ok (kind, data), rest) :=
  subpacket_write_read enc kind data rest henc hb hwcap hrcap

/-- C4 witness: concrete ZBIN32 round trip. -/
theorem c4_subpacket_round_trip_witness :
    ∃ out, write_subpacket .ZBIN32 .ZCRCW [1, 2, 3] = .ok out ∧
      read_subpacket .ZBIN32 (out ++ [9]) = (.ok (.ZCRCW, [1, 2, 3]), [9]) :=
  c4_subpacket_round_trip .ZBIN32 .ZCRCW [1, 2, 3] [9] (Or.inr rfl) (by decide)
    (by decide) (by decide)

/-! ### Sender and receiver state machines -/

def ZACK_HEADER : Header := Header.new .ZHEX .ZACK
def ZDATA_HEADER : Header := Header.new .ZBIN32 .ZDATA
def ZEOF_HEADER : Header := Header.new .ZBIN32 .ZEOF
def ZFIN_HEADER : Header := Header.new .ZHEX .ZFIN
def ZNAK_HEADER : Header := Header.new .ZHEX .ZNAK
def ZRPOS_HEADER : Header := Header.new .ZHEX .ZRPOS
def ZRQINIT_HEADER : Header := Header.new .ZHEX .ZRQINIT

/-- `Header::write_zrinit`: ZRINIT with flags `[count lo, count hi, 0, bits]`. -/
def write_zrinit (enc : Encoding) (bits count : Nat) : List Nat :=
  Header.write ⟨enc, .ZRINIT, count % 256, count / 256 % 256, 0, bits⟩

/-- The receiver's standard advertisement:
    `write_zrinit(ZHEX, CANCRY | CANOVIO | CANFC32, 0)`. -/
def zrinitAd : List Nat := write_zrinit .ZHEX (0x08 ||| 0x02 ||| 0x20) 0

def decimalAsciiAux : Nat → Nat → List Nat
  | 0, _ => []
  | f + 1, n => if n < 10 then [48 + n] else decimalAsciiAux f (n / 10) ++ [48 + n % 10]

/-- `u32::to_string` as ASCII bytes. -/
def decimalAscii (n : Nat) : List Nat := decimalAsciiAux (n + 1) n

/-- Capacity of the transmit buffer (`TxBuffer = ArrayVec<[u8; 1024]>`). -/
def TX_CAP : Nat := 1024

/-- `Header::write_zfile`: a ZBIN32 ZFILE header followed by one ZCRCW
    subpacket carrying `name ++ NUL ++ decimal(size) ++ NUL`; extending the
    1024-byte transmit buffer past its capacity panics. -/
def write_zfile (name : List Nat) (size : Nat) : Res (List Nat) :=
  let meta := name ++ [0] ++ decimalAscii size ++ [0]
  if meta.length > TX_CAP then .crash
  else
    match write_subpacket .ZBIN32 .ZCRCW meta with
    | .ok sp => .ok ((Header.new .ZBIN32 .ZFILE).write ++ sp)
    | .err => .err
    | .crash => .crash
    | .spin => .spin

/-- Receiver-side file descriptor (fixed 256-byte name buffer). -/
structure File where
  name : List Nat
deriving DecidableEq, Repr

/-- The name buffer built from a parsed file name (zero padded to 256). -/
def File.ofName (nm : List Nat) : File :=
  ⟨nm ++ List.replicate (256 - nm.length) 0⟩

/-- `Header::read_zfile`: read the metadata subpacket.  On success write
    ZRPOS(0), then parse the NUL-terminated name with binread (`NullString`
    with `assert(file_name.len() != 0)`; no NUL or an empty name is a parse
    error, a name longer than 255 bytes is rejected).  On a subpacket error
    write ZNAK and return no file.  Result: (outcome, rest of channel, bytes
    written to the channel). -/
def read_zfile (h : Header) (inp : List Nat) :
    Res (Option File) × List Nat × List Nat :=
  match read_subpacket h.encoding inp with
  | (.ok (_, buf), r0) =>
    let out := (ZRPOS_HEADER.withCount 0).write
    if 0 ∈ buf then
      let nm := buf.takeWhile (· ≠ 0)
      if nm.length = 0 then (.err, r0, out)
      else if nm.length > 255 then (.err, r0, out)
      else (.ok (some (File.ofName nm)), r0, out)
    else (.err, r0, out)
  | (.err, r0) => (.ok none, r0, ZNAK_HEADER.write)
  | (.crash, r0) => (.crash, r0, [])
  | (.spin, r0) => (.spin, r0, [])

/-- The window loop of `write_zdata` (`for _ in 1..SUBPACKET_PER_ACK`):
    write the current chunk as ZCRCG and read the next; a short read breaks
    out; after the loop the pending chunk goes out as ZCRCW. -/
def zdataLoop (iters : Nat) (chunk rest : List Nat) : Res (List Nat) :=
  match iters with
  | 0 => write_subpacket .ZBIN32 .ZCRCW chunk
  | n + 1 =>
    match write_subpacket .ZBIN32 .ZCRCG chunk with
    | .ok out =>
      let next := rest.take SUBPACKET_SIZE
      if next.length < SUBPACKET_SIZE then
        match write_subpacket .ZBIN32 .ZCRCW next with
        | .ok out2 => .ok (out ++ out2)
        | .err => .err
        | .crash => .crash
        | .spin => .spin
      else
        match zdataLoop n next (rest.drop SUBPACKET_SIZE) with
        | .ok out2 => .ok (out ++ out2)
        | .err => .err
        | .crash => .crash
        | .spin => .spin
    | .err => .err
    | .crash => .crash
    | .spin => .spin

/-- `write_zdata`: seek the source to the header's count, read up to 1024
    bytes; zero bytes means ZEOF(offset), otherwise ZDATA(offset) followed by
    the subpacket window. -/
def write_zdata (file : List Nat) (h : Header) : Res (List Nat) :=
  let offset := h.count
  let rest := file.drop offset
  let chunk := rest.take SUBPACKET_SIZE
  if chunk.length = 0 then .ok ((ZEOF_HEADER.withCount offset).write)
  else
    match zdataLoop (SUBPACKET_PER_ACK - 1) chunk (rest.drop SUBPACKET_SIZE) with
    | .ok out => .ok ((ZDATA_HEADER.withCount offset).write ++ out)
    | .err => .err
    | .crash => .crash
    | .spin => .spin

/-- `read_zdata`: read subpackets, appending each payload to the sink and
    adding its length to the count (u32 arithmetic wraps at 2^32); ZCRCW
    answers ZACK(count) and returns, ZCRCE returns, ZCRCQ answers ZACK and
    continues, ZCRCG continues; a subpacket error answers ZRPOS(count) and
    returns Ok.  Result: (outcome carrying the new count, rest of channel,
    bytes written to the channel, bytes appended to the sink). -/
def read_zdata (fuel : Nat) (encByte count : Nat) (inp : List Nat) :
    Res Nat × List Nat × List Nat × List Nat :=
  match fuel with
  | 0 => (.spin, inp, [], [])
  | f + 1 =>
    match Encoding.tryFrom encByte with
    | .ok enc =>
      match read_subpacket enc inp with
      | (.ok (zcrc, buf), r0) =>
        let count2 := (count + buf.length) % 4294967296
        match zcrc with
        | .ZCRCW => (.ok count2, r0, (ZACK_HEADER.withCount count2).write, buf)
        | .ZCRCE => (.ok count2, r0, [], buf)
        | .ZCRCQ =>
          match read_zdata f encByte count2 r0 with
          | (res, r1, out, sink) =>
            (res, r1, (ZACK_HEADER.withCount count2).write ++ out, buf ++ sink)
        | .ZCRCG =>
          match read_zdata f encByte count2 r0 with
          | (res, r1, out, sink) => (res, r1, out, buf ++ sink)
      | (.err, r0) => (.ok count, r0, (ZRPOS_HEADER.withCount count).write, [])
      | (.crash, r0) => (.crash, r0, [], [])
      | (.spin, r0) => (.spin, r0, [], [])
    | _ => (.err, inp, [], [])

def prep2 (out : List Nat) (p : Res Unit × List Nat) : Res Unit × List Nat :=
  (p.1, out ++ p.2)

def prep3 (out : List Nat) (p : Res (Option File × Nat) × List Nat × List Nat) :
    Res (Option File × Nat) × List Nat × List Nat :=
  (p.1, out ++ p.2.1, p.2.2)

def prep3s (out sink : List Nat)
    (p : Res (Option File × Nat) × List Nat × List Nat) :
    Res (Option File × Nat) × List Nat × List Nat :=
  (p.1, out ++ p.2.1, sink ++ p.2.2)

/-- The receiver's main loop (the `loop` of `read`): skip pad bytes, parse a
    header and act on it; `fuel` bounds the number of iterations (the Rust
    loop blocks forever on a silent channel).  Result: (outcome carrying the
    final `(file, bytes_received)` state, bytes written to the channel, bytes
    appended to the sink). -/
def receiverLoop (fuel : Nat) (st : Option File × Nat) (inp : List Nat) :
    Res (Option File × Nat) × List Nat × List Nat :=
  match fuel with
  | 0 => (.spin, [], [])
  | f + 1 =>
    match read_zpad inp with
    | (.ok _, r0) =>
      match Header.read r0 with
      | (.ok frame, r1) =>
        match frame.kind with
        | .ZFILE =>
          if st.1.isNone ∨ st.2 = 0 then
            if st.2 ≠ 0 then (.crash, [], [])
            else
              match read_zfile frame r1 with
              | (.ok newf, r2, out) => prep3 out (receiverLoop f (newf, st.2) r2)
              | (.err, _, out) => (.err, out, [])
              | (.crash, _, out) => (.crash, out, [])
              | (.spin, _, out) => (.spin, out, [])
          else receiverLoop f st r1
        | .ZDATA =>
          if st.1.isNone then prep3 zrinitAd (receiverLoop f st r1)
          else if frame.count ≠ st.2 then
            prep3 ((ZRPOS_HEADER.withCount st.2).write) (receiverLoop f st r1)
          else
            match read_zdata (r1.length + 1) frame.encoding.toByte st.2 r1 with
            | (.ok c2, r2, out, sink) => prep3s out sink (receiverLoop f (st.1, c2) r2)
            | (.err, _, out, sink) => (.err, out, sink)
            | (.crash, _, out, sink) => (.crash, out, sink)
            | (.spin, _, out, sink) => (.spin, out, sink)
        | .ZEOF =>
          if st.1.isSome then
            if frame.count ≠ st.2 then receiverLoop f st r1
            else prep3 zrinitAd (receiverLoop f st r1)
          else prep3 zrinitAd (receiverLoop f st r1)
        | .ZFIN =>
          if st.1.isSome then (.ok st, ZFIN_HEADER.write, [])
          else prep3 zrinitAd (receiverLoop f st r1)
        | _ =>
          if st.1.isNone then prep3 zrinitAd (receiverLoop f st r1)
          else receiverLoop f st r1
      | (.err, r1) => prep3 ZNAK_HEADER.write (receiverLoop f st r1)
      | (.crash, _) => (.crash, [], [])
      | (.spin, _) => (.spin, [], [])
    | (_, r0) => receiverLoop f st r0

/-- The receiver operation `read`: with no file open the state must be
    `(none, 0)` — `assert_eq!(state.1, 0)` panics before any channel I/O
    otherwise — then the ZRINIT advertisement goes out and the main loop
    runs. -/
def readTop (fuel : Nat) (st : Option File × Nat) (inp : List Nat) :
    Res (Option File × Nat) × List Nat × List Nat :=
  match st.1 with
  | none =>
    if st.2 ≠ 0 then (.crash, [], [])
    else prep3 zrinitAd (receiverLoop fuel (none, 0) inp)
  | some _ => receiverLoop fuel st inp

/-- Sender stages. -/
inductive Stage where
  | Waiting | Ready | Receiving
deriving DecidableEq, Repr

/-- The sender's main loop (the `loop` of `write`): skip pad bytes, parse a
    header and act on it; `fuel` bounds the iterations.  Result: (outcome,
    bytes written to the channel). -/
def senderLoop (file name : List Nat) (size : Option Nat)
    (fuel : Nat) (stage : Stage) (inp : List Nat) : Res Unit × List Nat :=
  match fuel with
  | 0 => (.spin, [])
  | f + 1 =>
    match read_zpad inp with
    | (.ok _, r0) =>
      match Header.read r0 with
      | (.ok frame, r1) =>
        match frame.kind with
        | .ZRINIT =>
          match stage with
          | .Waiting =>
            match write_zfile name (size.getD 0) with
            | .ok out => prep2 out (senderLoop file name size f .Ready r1)
            | .err => (.err, [])
            | .crash => (.crash, [])
            | .spin => (.spin, [])
          | .Ready => senderLoop file name size f .Ready r1
          | .Receiving =>
            prep2 ZFIN_HEADER.write (senderLoop file name size f .Receiving r1)
        | .ZRPOS | .ZACK =>
          if stage = .Waiting then
            prep2 ZRQINIT_HEADER.write (senderLoop file name size f .Waiting r1)
          else
            match write_zdata file frame with
            | .ok out => prep2 out (senderLoop file name size f .Receiving r1)
            | .err => (.err, [])
            | .crash => (.crash, [])
            | .spin => (.spin, [])
        | _ =>
          if stage = .Waiting then
            prep2 ZRQINIT_HEADER.write (senderLoop file name size f .Waiting r1)
          else (.ok (), [0x4f, 0x4f])
      | (.err, r1) => prep2 ZNAK_HEADER.write (senderLoop file name size f stage r1)
      | (.crash, _) => (.crash, [])
      | (.spin, _) => (.spin, [])
    | (_, r0) => senderLoop file name size f stage r0

/-- The sender operation `write`: emit ZRQINIT and run the main loop. -/
def writeTop (file name : List Nat) (size : Option Nat) (fuel : Nat)
    (inp : List Nat) : Res Unit × List Nat :=
  prep2 ZRQINIT_HEADER.write (senderLoop file name size fuel .Waiting inp)

/-! ### Claim C10: fresh-state assertion -/

/-- C10: calling the receiver `read` with state `(none, n)` for non-zero `n`
    panics on `assert_eq!(state.1, 0)` before any channel I/O (no bytes are
    read or written, whatever the channel holds); with `(none, 0)` the
    operation proceeds and its first output is the ZRINIT advertisement. -/
theorem c10_fresh_state_assert (n : Nat) (hn : n ≠ 0) (fuel : Nat) (inp : List Nat) :
    readTop fuel (none, n) inp = (.crash, [], []) ∧
    ∃ out, (readTop fuel (none, 0) inp).2.1 = zrinitAd ++ out := by
  constructor
  · simp [readTop, hn]
  · exact ⟨(receiverLoop fuel (none, 0) inp).2.1, by simp [readTop, prep3]⟩

/-- C10 witness. -/
theorem c10_fresh_state_assert_witness :
    readTop 0 ((none : Option File), 1) [3, 4] = (.crash, [], []) ∧
    ∃ out, (readTop 0 ((none : Option File), 0) [3, 4]).2.1 = zrinitAd ++ out :=
  c10_fresh_state_assert 1 (by decide) 0 [3, 4]

/-! ### Claim C7: the data pump -/

/-- The bytes `write_subpacket` produces (for the binary encodings, when the
    escaped payload fits). -/
def subpacketBytes (enc : Encoding) (kind : Packet) (data : List Nat) : List Nat :=
  escape_mem data ++ [ZDLE, kind.toByte] ++ escape_mem (make_crc (data ++ [kind.toByte]) enc)

theorem escape_mem_length_le (l : List Nat) : (escape_mem l).length ≤ 2 * l.length := by
  induction l with
  | nil => simp [escape_mem]
  | cons b bs ih =>
    simp only [escape_mem, escByte, List.length_append, List.length_cons]
    split <;> simp only [List.length_cons, List.length_nil] <;> omega

theorem write_subpacket_eq (enc : Encoding) (kind : Packet) (data : List Nat)
    (henc : enc = .ZBIN ∨ enc = .ZBIN32)
    (hcap : (escape_mem data).length ≤ 2 * SUBPACKET_SIZE) :
    write_subpacket enc kind data = .ok (subpacketBytes enc kind data) := by
  have hnot : ¬ ((escape_mem data).length > 2 * SUBPACKET_SIZE) := by omega
  rcases henc with rfl | rfl <;>
    simp [write_subpacket, hnot, subpacketBytes, make_crc]

/-- The ZCRCG payloads and the final ZCRCW payload produced by one
    `write_zdata` window, mirroring the loop structure. -/
def windowG (iters : Nat) (chunk rest : List Nat) : List (List Nat) × List Nat :=
  match iters with
  | 0 => ([], chunk)
  | n + 1 =>
    let next := rest.take SUBPACKET_SIZE
    if next.length < SUBPACKET_SIZE then ([chunk], next)
    else
      let p := windowG n next (rest.drop SUBPACKET_SIZE)
      (chunk :: p.1, p.2)

theorem windowG_length (iters : Nat) (chunk rest : List Nat) :
    (windowG iters chunk rest).1.length ≤ iters := by
  induction iters generalizing chunk rest with
  | zero => simp [windowG]
  | succ n ih =>
    simp only [windowG]
    split
    · simp
    · simpa using Nat.succ_le_succ (ih _ _)

theorem zdataLoop_eq (iters : Nat) (chunk rest : List Nat)
    (hc : chunk.length ≤ SUBPACKET_SIZE) :
    zdataLoop iters chunk rest
      = .ok ((((windowG iters chunk rest).1.map
            (subpacketBytes .ZBIN32 .ZCRCG)).flatten)
          ++ subpacketBytes .ZBIN32 .ZCRCW (windowG iters chunk rest).2) := by
  induction iters generalizing chunk rest with
  | zero =>
    have := escape_mem_length_le chunk
    simp only [zdataLoop, windowG, List.map_nil, List.flatten, List.nil_append]
    exact write_subpacket_eq _ _ _ (Or.inr rfl) (by omega)
  | succ n ih =>
    have hg : write_subpacket .ZBIN32 .ZCRCG chunk
        = .ok (subpacketBytes .ZBIN32 .ZCRCG chunk) := by
      have := escape_mem_length_le chunk
      exact write_subpacket_eq _ _ _ (Or.inr rfl) (by omega)
    by_cases hshort : (rest.take SUBPACKET_SIZE).length < SUBPACKET_SIZE
    · have hw : write_subpacket .ZBIN32 .ZCRCW (rest.take SUBPACKET_SIZE)
          = .ok (subpacketBytes .ZBIN32 .ZCRCW (rest.take SUBPACKET_SIZE)) := by
        have h1 : (rest.take SUBPACKET_SIZE).length ≤ SUBPACKET_SIZE := by
          simp [List.length_take]
        have := escape_mem_length_le (rest.take SUBPACKET_SIZE)
        exact write_subpacket_eq _ _ _ (Or.inr rfl) (by omega)
      have hshort2 : rest.length < SUBPACKET_SIZE := by
        simp only [List.length_take] at hshort
        omega
      simp [zdataLoop, windowG, hg, hw, hshort2]
    · have hnext : (rest.take SUBPACKET_SIZE).length ≤ SUBPACKET_SIZE := by
        simp [List.length_take]
      have hshort2 : ¬ rest.length < SUBPACKET_SIZE := by
        simp only [List.length_take] at hshort
        omega
      have := ih (rest.take SUBPACKET_SIZE) (rest.drop SUBPACKET_SIZE) hnext
      simp [zdataLoop, windowG, hg, hshort2, this]

/-- C7: the data pump seeks the source to the requested offset and reads up
    to 1024 bytes.  Zero bytes read gives a single ZEOF header with count the
    offset; otherwise a ZDATA header with count the offset is followed by at
    most `SUBPACKET_PER_ACK - 1 = 9` ZCRCG subpackets (the window stops early
    after a chunk shorter than 1024 bytes) and exactly one final ZCRCW
    subpacket. -/
theorem c7_data_pump (file : List Nat) (h : Header) :
    (((file.drop h.count).take SUBPACKET_SIZE).length = 0 →
      write_zdata file h = .ok ((ZEOF_HEADER.withCount h.count).write)) ∧
    (((file.drop h.count).take SUBPACKET_SIZE).length ≠ 0 →
      write_zdata file h
        = .ok ((ZDATA_HEADER.withCount h.count).write
          ++ ((((windowG (SUBPACKET_PER_ACK - 1) ((file.drop h.count).take SUBPACKET_SIZE)
                ((file.drop h.count).drop SUBPACKET_SIZE)).1.map
              (subpacketBytes .ZBIN32 .ZCRCG)).flatten)
            ++ subpacketBytes .ZBIN32 .ZCRCW
              (windowG (SUBPACKET_PER_ACK - 1) ((file.drop h.count).take SUBPACKET_SIZE)
                ((file.drop h.count).drop SUBPACKET_SIZE)).2)) ∧
      (windowG (SUBPACKET_PER_ACK - 1) ((file.drop h.count).take SUBPACKET_SIZE)
        ((file.drop h.count).drop SUBPACKET_SIZE)).1.length ≤ SUBPACKET_PER_ACK - 1) := by
  constructor
  · intro hz
    simp [write_zdata, hz]
  · intro hnz
    refine ⟨?_, windowG_length _ _ _⟩
    have hc : ((file.drop h.count).take SUBPACKET_SIZE).length ≤ SUBPACKET_SIZE := by
      simp [List.length_take]
    have hz := zdataLoop_eq (SUBPACKET_PER_ACK - 1)
      ((file.drop h.count).take SUBPACKET_SIZE)
      ((file.drop h.count).drop SUBPACKET_SIZE) hc
    simp only [write_zdata]
    rw [if_neg hnz, hz]

/-- C7 witness. -/
theorem c7_data_pump_witness :
    ((([] : List Nat).drop (Header.new .ZBIN32 .ZACK).count).take SUBPACKET_SIZE).length = 0
    ∧ write_zdata [] (Header.new .ZBIN32 .ZACK)
      = .ok ((ZEOF_HEADER.withCount (Header.new .ZBIN32 .ZACK).count).write) :=
  ⟨by decide, (c7_data_pump [] (Header.new .ZBIN32 .ZACK)).1 (by decide)⟩

/-! ### Claim C9: consumption bounds and count monotonicity -/

theorem readByteUnescaped_consume (inp : List Nat) :
    (readByteUnescaped inp).2.length ≤ inp.length := by
  rcases inp with _ | ⟨b, r⟩
  · simp [readByteUnescaped]
  · by_cases h : b = ZDLE
    · rcases r with _ | ⟨b2, r2⟩ <;> (simp [readByteUnescaped, h]; try omega)
    · simp [readByteUnescaped, h]

theorem readUnescapedN_consume (n : Nat) (inp : List Nat) :
    (readUnescapedN n inp).2.length ≤ inp.length := by
  induction n generalizing inp with
  | zero => simp [readUnescapedN]
  | succ m ih =>
    rcases hrb : readByteUnescaped inp with ⟨res, r⟩
    have h1 : r.length ≤ inp.length := by
      have := readByteUnescaped_consume inp
      rw [hrb] at this
      exact this
    cases res with
    | ok b =>
      rcases hrn : readUnescapedN m r with ⟨res2, r2⟩
      have h2 : r2.length ≤ r.length := by
        have := ih r
        rw [hrn] at this
        exact this
      cases res2 <;> simp only [readUnescapedN, hrb, hrn] <;> omega
    | err =>
      simp only [readUnescapedN, hrb]
      omega
    | crash =>
      simp only [readUnescapedN, hrb]
      omega
    | spin =>
      simp only [readUnescapedN, hrb]
      omega

theorem read_zpad_consume (inp : List Nat) : (read_zpad inp).2.length ≤ inp.length := by
  have hdp : ZDLE ≠ ZPAD := by decide
  rcases inp with _ | ⟨b0, r0⟩
  · simp [read_zpad, readByte]
  by_cases h0 : b0 = ZPAD
  · subst h0
    rcases r0 with _ | ⟨b1, r1⟩
    · simp [read_zpad, readByte]
    by_cases h1 : b1 = ZPAD
    · subst h1
      rcases r1 with _ | ⟨b2, r2⟩
      · simp [read_zpad, readByte]
      by_cases h2 : b2 = ZDLE
      · simp [read_zpad, readByte, h2]
        try omega
      · simp [read_zpad, readByte, h2]
        try omega
    · by_cases h1d : b1 = ZDLE
      · subst h1d
        simp [read_zpad, readByte, hdp]
        try omega
      · simp [read_zpad, readByte, h1, h1d]
        try omega
  · simp [read_zpad, readByte, h0]

theorem Header.read_consume (inp : List Nat) : (Header.read inp).2.length ≤ inp.length := by
  rcases inp with _ | ⟨b0, r0⟩
  · simp [Header.read, readByte]
  have hcons : readByte (b0 :: r0) = (.ok b0, r0) := rfl
  rcases henc : Encoding.tryFrom b0 with enc | _ | _ | _ <;>
    simp only [Header.read, hcons, henc] <;>
    (try simp)
  rcases hrn : readUnescapedN (Header.unescapedSize enc - 1) r0 with ⟨res, r1⟩
  have h1 : r1.length ≤ r0.length := by
    have := readUnescapedN_consume (Header.unescapedSize enc - 1) r0
    rw [hrn] at this
    exact this
  cases res with
  | ok raw =>
    simp only []
    split
    · split
      · split
        all_goals try simp
        all_goals omega
      all_goals try simp
      all_goals omega
    all_goals try simp
    all_goals omega
  | err =>
    simp only []
    omega
  | crash =>
    simp only []
    omega
  | spin =>
    simp only []
    omega

theorem readSubpacketLoop_rest_le :
    ∀ (n : Nat) (inp acc : List Nat), inp.length ≤ n →
      (readSubpacketLoop inp acc).2.length ≤ inp.length := by
  intro n
  induction n with
  | zero =>
    intro inp acc hlen
    have : inp = [] := List.eq_nil_of_length_eq_zero (by omega)
    subst this
    simp [readSubpacketLoop]
  | succ m ih =>
    intro inp acc hlen
    rcases inp with _ | ⟨b, r⟩
    · simp [readSubpacketLoop]
    rw [readSubpacketLoop.eq_def]
    by_cases hz : b = ZDLE
    · rcases r with _ | ⟨b2, r2⟩
      · simp [hz]
      · have hr2 := ih r2 (acc ++ [unzdleT b2]) (by simp at hlen ⊢; omega)
        rcases hp : Packet.tryFrom b2 with k | _ | _ | _ <;>
          simp only [hz, if_pos, hp] <;>
          split
        all_goals try simp
        all_goals simp at hr2 ⊢
        all_goals omega
    · have hr := ih r (acc ++ [b]) (by simp at hlen ⊢; omega)
      simp only [if_neg hz]
      split
      · simp
      · simp at hr ⊢
        omega

theorem readSubpacketLoop_ok_bound :
    ∀ (n : Nat) (inp acc kbuf r : List Nat) (kind : Packet),
      inp.length ≤ n →
      readSubpacketLoop inp acc = (.ok (kind, kbuf), r) →
      kbuf.length + r.length ≤ acc.length + inp.length ∧ r.length < inp.length := by
  intro n
  induction n with
  | zero =>
    intro inp acc kbuf r kind hlen heq
    have h : inp = [] := List.eq_nil_of_length_eq_zero (by omega)
    subst h
    simp [readSubpacketLoop] at heq
  | succ m ih =>
    intro inp acc kbuf r kind hlen heq
    rcases inp with _ | ⟨b, r0⟩
    · simp [readSubpacketLoop] at heq
    rw [readSubpacketLoop.eq_def] at heq
    by_cases hz : b = ZDLE
    · rcases r0 with _ | ⟨b2, r2⟩
      · simp [hz] at heq
      · rcases hp : Packet.tryFrom b2 with k | _ | _ | _ <;>
          simp only [hz, if_pos, hp] at heq
        · split at heq
          · cases heq
          · simp only [Prod.mk.injEq, Res.ok.injEq] at heq
            obtain ⟨⟨hk, hbuf⟩, hr⟩ := heq
            subst hbuf
            subst hr
            simp at hlen ⊢
            omega
        · split at heq
          · cases heq
          · have := ih r2 (acc ++ [unzdleT b2]) kbuf r kind
              (by simp at hlen ⊢; omega) heq
            simp at this ⊢
            omega
        · split at heq
          · cases heq
          · have := ih r2 (acc ++ [unzdleT b2]) kbuf r kind
              (by simp at hlen ⊢; omega) heq
            simp at this ⊢
            omega
        · split at heq
          · cases heq
          · have := ih r2 (acc ++ [unzdleT b2]) kbuf r kind
              (by simp at hlen ⊢; omega) heq
            simp at this ⊢
            omega
    · simp only [if_neg hz] at heq
      split at heq
      · cases heq
      · have := ih r0 (acc ++ [b]) kbuf r kind (by simp at hlen ⊢; omega) heq
        simp at this ⊢
        omega

theorem read_subpacket_rest_le (enc : Encoding) (inp : List Nat) :
    (read_subpacket enc inp).2.length ≤ inp.length := by
  rcases hloop : readSubpacketLoop inp [] with ⟨res, r0⟩
  have h0 : r0.length ≤ inp.length := by
    have := readSubpacketLoop_rest_le inp.length inp [] le_rfl
    rw [hloop] at this
    exact this
  cases res with
  | ok kb =>
    rcases kb with ⟨kind, buf⟩
    rcases hcrc : readUnescapedN (if enc = .ZBIN32 then 4 else 2) r0 with ⟨res2, r1⟩
    have h1 : r1.length ≤ r0.length := by
      have := readUnescapedN_consume (if enc = .ZBIN32 then 4 else 2) r0
      rw [hcrc] at this
      exact this
    cases res2 <;> simp only [read_subpacket, hloop, hcrc]
    · split
      all_goals try simp
      all_goals omega
    all_goals try simp
    all_goals omega
  | err =>
    simp only [read_subpacket, hloop]
    omega
  | crash =>
    simp only [read_subpacket, hloop]
    omega
  | spin =>
    simp only [read_subpacket, hloop]
    omega

theorem read_subpacket_ok_bound (enc : Encoding) (inp : List Nat) (kind : Packet)
    (buf r : List Nat) (h : read_subpacket enc inp = (.ok (kind, buf), r)) :
    buf.length + r.length < inp.length := by
  rcases hloop : readSubpacketLoop inp [] with ⟨res, r0⟩
  cases res with
  | ok kb =>
    rcases kb with ⟨kind2, buf2⟩
    have hb := readSubpacketLoop_ok_bound inp.length inp [] buf2 r0 kind2 le_rfl hloop
    rcases hcrc : readUnescapedN (if enc = .ZBIN32 then 4 else 2) r0 with ⟨res2, r1⟩
    have h1 : r1.length ≤ r0.length := by
      have := readUnescapedN_consume (if enc = .ZBIN32 then 4 else 2) r0
      rw [hcrc] at this
      exact this
    cases res2 <;> simp only [read_subpacket, hloop, hcrc] at h
    · split at h
      · simp only [Prod.mk.injEq, Res.ok.injEq] at h
        obtain ⟨⟨hk, hbuf⟩, hr⟩ := h
        subst hbuf
        subst hr
        have hlb : buf2.dropLast.length = buf2.length - 1 := by
          simp [List.length_dropLast]
        simp at hb
        omega
      · cases h
      · cases h
      · cases h
    · cases h
    · cases h
    · cases h
  | err =>
    simp only [read_subpacket, hloop] at h
    cases h
  | crash =>
    simp only [read_subpacket, hloop] at h
    cases h
  | spin =>
    simp only [read_subpacket, hloop] at h
    cases h

/-- The data-receive inner loop never decreases the count while the u32
    addition cannot wrap, and never produces a count past the input bound. -/
theorem read_zdata_monotone (fuel : Nat) :
    ∀ (encB count : Nat) (inp : List Nat) (c2 : Nat) (r out sink : List Nat),
      read_zdata fuel encB count inp = (.ok c2, r, out, sink) →
      count + inp.length < 4294967296 →
      count ≤ c2 ∧ c2 + r.length ≤ count + inp.length := by
  induction fuel with
  | zero =>
    intro encB count inp c2 r out sink heq hb
    simp [read_zdata] at heq
  | succ f ih =>
    intro encB count inp c2 r out sink heq hb
    rcases henc : Encoding.tryFrom encB with enc | _ | _ | _ <;>
      simp only [read_zdata, henc] at heq
    · rcases hsp : read_subpacket enc inp with ⟨res, r0⟩
      have hrle : r0.length ≤ inp.length := by
        have := read_subpacket_rest_le enc inp
        rw [hsp] at this
        exact this
      rw [hsp] at heq
      cases res with
      | ok kb =>
        rcases kb with ⟨zcrc, buf⟩
        have hbound := read_subpacket_ok_bound enc inp zcrc buf r0 hsp
        have hnw : (count + buf.length) % 4294967296 = count + buf.length :=
          Nat.mod_eq_of_lt (by omega)
        cases zcrc <;> simp only [hnw] at heq
        · simp only [Prod.mk.injEq, Res.ok.injEq] at heq
          obtain ⟨hc, hr, _, _⟩ := heq
          subst hc
          subst hr
          omega
        · rcases hrec : read_zdata f encB (count + buf.length) r0 with ⟨res1, r1, o1, s1⟩
          rw [hrec] at heq
          simp only [Prod.mk.injEq] at heq
          obtain ⟨hres, hr, _, _⟩ := heq
          subst hres
          subst hr
          have := ih encB (count + buf.length) r0 c2 r1 o1 s1 hrec (by omega)
          omega
        · rcases hrec : read_zdata f encB (count + buf.length) r0 with ⟨res1, r1, o1, s1⟩
          rw [hrec] at heq
          simp only [Prod.mk.injEq] at heq
          obtain ⟨hres, hr, _, _⟩ := heq
          subst hres
          subst hr
          have := ih encB (count + buf.length) r0 c2 r1 o1 s1 hrec (by omega)
          omega
        · simp only [Prod.mk.injEq, Res.ok.injEq] at heq
          obtain ⟨hc, hr, _, _⟩ := heq
          subst hc
          subst hr
          omega
      | err =>
        simp only [Prod.mk.injEq, Res.ok.injEq] at heq
        obtain ⟨hc, hr, _, _⟩ := heq
        subst hc
        subst hr
        omega
      | crash => simp at heq
      | spin => simp at heq
    · simp at heq
    · simp at heq
    · simp at heq

theorem read_zfile_rest_le (h : Header) (inp : List Nat) :
    (read_zfile h inp).2.1.length ≤ inp.length := by
  rcases hsp : read_subpacket h.encoding inp with ⟨res, r0⟩
  have hle := read_subpacket_rest_le h.encoding inp
  rw [hsp] at hle
  cases res with
  | ok kb =>
    rcases kb with ⟨k, buf⟩
    simp only [read_zfile, hsp]
    split
    · split
      · exact hle
      · split
        · exact hle
        · exact hle
    · exact hle
  | err => simpa [read_zfile, hsp] using hle
  | crash => simpa [read_zfile, hsp] using hle
  | spin => simpa [read_zfile, hsp] using hle

/-- No step of the receiver's main loop ever decreases `bytes_received`
    while the u32 count arithmetic cannot wrap. -/
theorem receiverLoop_monotone (fuel : Nat) :
    ∀ (st : Option File × Nat) (inp : List Nat) (f2 : Option File) (n2 : Nat),
      (receiverLoop fuel st inp).1 = .ok (f2, n2) →
      st.2 + inp.length < 4294967296 →
      st.2 ≤ n2 := by
  induction fuel with
  | zero =>
    intro st inp f2 n2 heq hb
    simp [receiverLoop] at heq
  | succ f ih =>
    intro st inp f2 n2 heq hb
    rcases hzp : read_zpad inp with ⟨zres, r0⟩
    have hr0 : r0.length ≤ inp.length := by
      have := read_zpad_consume inp
      rw [hzp] at this
      exact this
    cases zres with
    | ok u =>
      rcases hhr : Header.read r0 with ⟨hres, r1⟩
      have hr1 : r1.length ≤ r0.length := by
        have := Header.read_consume r0
        rw [hhr] at this
        exact this
      cases hres with
      | ok frame =>
        simp only [receiverLoop, hzp, hhr] at heq
        split at heq
        · -- ZFILE
          split at heq
          · split at heq
            · simp at heq
            · rcases hzf : read_zfile frame r1 with ⟨zfres, r2, out2⟩
              have hr2 : r2.length ≤ r1.length := by
                have := read_zfile_rest_le frame r1
                rw [hzf] at this
                exact this
              rw [hzf] at heq
              cases zfres with
              | ok newf =>
                simp only [prep3] at heq
                exact ih (newf, st.2) r2 f2 n2 heq (by simp; omega)
              | err => simp at heq
              | crash => simp at heq
              | spin => simp at heq
          · exact ih st r1 f2 n2 heq (by omega)
        · -- ZDATA
          split at heq
          · simp only [prep3] at heq
            exact ih st r1 f2 n2 heq (by omega)
          · split at heq
            · simp only [prep3] at heq
              exact ih st r1 f2 n2 heq (by omega)
            · rcases hzd : read_zdata (r1.length + 1) frame.encoding.toByte st.2 r1
                with ⟨dres, r2, o2, s2⟩
              rw [hzd] at heq
              cases dres with
              | ok c2 =>
                have hmono := read_zdata_monotone (r1.length + 1)
                  frame.encoding.toByte st.2 r1 c2 r2 o2 s2 hzd (by omega)
                simp only [prep3s] at heq
                have := ih (st.1, c2) r2 f2 n2 heq (by simp; omega)
                simp at this
                omega
              | err => simp at heq
              | crash => simp at heq
              | spin => simp at heq
        · -- ZEOF
          split at heq
          · split at heq
            · exact ih st r1 f2 n2 heq (by omega)
            · simp only [prep3] at heq
              exact ih st r1 f2 n2 heq (by omega)
          · simp only [prep3] at heq
            exact ih st r1 f2 n2 heq (by omega)
        · -- ZFIN
          split at heq
          · simp only [Res.ok.injEq] at heq
            subst heq
            simp
          · simp only [prep3] at heq
            exact ih st r1 f2 n2 heq (by omega)
        · -- other frames
          split at heq
          · simp only [prep3] at heq
            exact ih st r1 f2 n2 heq (by omega)
          · exact ih st r1 f2 n2 heq (by omega)
      | err =>
        simp only [receiverLoop, hzp, hhr, prep3] at heq
        exact ih st r1 f2 n2 heq (by omega)
      | crash =>
        simp only [receiverLoop, hzp, hhr] at heq
        simp at heq
      | spin =>
        simp only [receiverLoop, hzp, hhr] at heq
        simp at heq
    | err =>
      simp only [receiverLoop, hzp] at heq
      exact ih st r0 f2 n2 heq (by omega)
    | crash =>
      simp only [receiverLoop, hzp] at heq
      exact ih st r0 f2 n2 heq (by omega)
    | spin =>
      simp only [receiverLoop, hzp] at heq
      exact ih st r0 f2 n2 heq (by omega)

def resListD : Res (List Nat) → List Nat
  | .ok l => l
  | _ => []

/-- C9 counterexample: `bytes_received` is a u32 and `*count += buf.len()`
    wraps.  Running the receiver loop with a file open and
    `bytes_received = 0xFFFFFFFF` on a ZDATA frame at that offset carrying a
    valid one-byte ZCRCE subpacket, then a ZFIN, terminates with
    `bytes_received = 0`: the data-receive inner loop decreased it. -/
theorem c9_counterexample :
    (receiverLoop 3 (some (File.ofName [97]), 4294967295)
        ((ZDATA_HEADER.withCount 4294967295).write
          ++ resListD (write_subpacket .ZBIN32 .ZCRCE [65])
          ++ ZFIN_HEADER.write)).1
      = .ok (some (File.ofName [97]), 0) ∧ (0 : Nat) < 4294967295 := by
  exact ⟨by decide, by decide⟩

/-- C9 amended: as long as the u32 count arithmetic cannot wrap (the running
    count plus the bytes still on the channel stays below 2^32), neither the
    data-receive inner loop (`read_zdata`) nor any step of the receiver state
    machine (`receiverLoop`) ever decreases `bytes_received`. -/
theorem c9_count_monotone :
    (∀ (fuel encB count : Nat) (inp : List Nat) (c2 : Nat) (r out sink : List Nat),
      read_zdata fuel encB count inp = (.ok c2, r, out, sink) →
      count + inp.length < 4294967296 → count ≤ c2) ∧
    (∀ (fuel : Nat) (st : Option File × Nat) (inp : List Nat) (f2 : Option File) (n2 : Nat),
      (receiverLoop fuel st inp).1 = .ok (f2, n2) →
      st.2 + inp.length < 4294967296 → st.2 ≤ n2) :=
  ⟨fun fuel encB count inp c2 r out sink h hb =>
    (read_zdata_monotone fuel encB count inp c2 r out sink h hb).1,
   receiverLoop_monotone⟩

/-- C9 witness: a concrete inner-loop run (empty channel: the subpacket read
    fails, ZRPOS goes out, the count is unchanged). -/
theorem c9_count_monotone_witness : (7 : Nat) ≤ 7 :=
  c9_count_monotone.1 1 0x41 7 [] 7 [] ((ZRPOS_HEADER.withCount 7).write) []
    (by decide) (by decide)

/-! ### Claim C1: end-to-end transfer -/

theorem Header.withCount_count (h : Header) (o : Nat) (ho : o < 4294967296) :
    (h.withCount o).count = o := by
  simp only [Header.withCount, Header.count]
  omega

theorem bytesOK_take (n : Nat) (l : List Nat) (h : bytesOK l) : bytesOK (l.take n) :=
  fun b hb => h b (List.mem_of_mem_take hb)

theorem bytesOK_drop (n : Nat) (l : List Nat) (h : bytesOK l) : bytesOK (l.drop n) :=
  fun b hb => h b (List.mem_of_mem_drop hb)

theorem decimalAsciiAux_bytesOK : ∀ (fuel n : Nat), bytesOK (decimalAsciiAux fuel n) := by
  intro fuel
  induction fuel with
  | zero => intro n; exact bytesOK_nil
  | succ f ih =>
    intro n
    by_cases h : n < 10
    · simp only [decimalAsciiAux, if_pos h]
      exact bytesOK_cons (by omega) bytesOK_nil
    · simp only [decimalAsciiAux, if_neg h]
      refine bytesOK_append (ih _) (bytesOK_cons (by omega) bytesOK_nil)

theorem decimalAsciiAux_ne_zero : ∀ (fuel n : Nat), 0 ∉ decimalAsciiAux fuel n := by
  intro fuel
  induction fuel with
  | zero => intro n h; cases h
  | succ f ih =>
    intro n h
    by_cases hn : n < 10
    · simp only [decimalAsciiAux, if_pos hn, List.mem_singleton] at h
      omega
    · simp only [decimalAsciiAux, if_neg hn, List.mem_append, List.mem_singleton] at h
      rcases h with h | h
      · exact ih _ h
      · omega

theorem decimalAsciiAux_length : ∀ (fuel f n : Nat), n < 10 ^ f → f ≤ fuel →
    (decimalAsciiAux fuel n).length ≤ max f 1 := by
  intro fuel
  induction fuel with
  | zero => intro f n hf hle; simp [decimalAsciiAux]
  | succ m ih =>
    intro f n hf hle
    by_cases h : n < 10
    · simp only [decimalAsciiAux, if_pos h, List.length_singleton]
      omega
    · simp only [decimalAsciiAux, if_neg h, List.length_append, List.length_singleton]
      have hf2 : 2 ≤ f := by
        by_contra hc
        push_neg at hc
        interval_cases f <;> (simp_all; try omega)
      have hdiv : n / 10 < 10 ^ (f - 1) := by
        have h10 : 10 ^ f = 10 ^ (f - 1) * 10 := by
          rw [← pow_succ]
          congr 1
          omega
        rw [h10] at hf
        omega
      have := ih (f - 1) (n / 10) hdiv (by omega)
      omega

theorem decimalAscii_length (n : Nat) (h : n < 4294967296) :
    (decimalAscii n).length ≤ 10 := by
  by_cases hn : n < 10
  · simp only [decimalAscii, decimalAsciiAux, if_pos hn, List.length_singleton]
    omega
  · have h10 : n < 10 ^ 10 := by omega
    have := decimalAsciiAux_length (n + 1) 10 n h10 (by omega)
    simpa using this

theorem takeWhile_name (name tail : List Nat) (h : 0 ∉ name) :
    (name ++ 0 :: tail).takeWhile (· ≠ 0) = name := by
  induction name with
  | nil => simp [List.takeWhile]
  | cons b bs ih =>
    have hb : b ≠ 0 := fun hc => h (hc ▸ List.mem_cons_self _ _)
    have hbs : 0 ∉ bs := fun hc => h (List.mem_cons_of_mem _ hc)
    have h2 := ih hbs
    simp only [List.cons_append, List.takeWhile, ne_eq, decide_not] at h2 ⊢
    simp [hb, h2]

theorem read_subpacketBytes (enc : Encoding) (kind : Packet) (data rest : List Nat)
    (henc : enc = .ZBIN ∨ enc = .ZBIN32) (hb : bytesOK data)
    (hwcap : (escape_mem data).length ≤ 2 * SUBPACKET_SIZE)
    (hrcap : data.length + 1 ≤ RX_CAP) :
    read_subpacket enc (subpacketBytes enc kind data ++ rest) = (.ok (kind, data), rest) := by
  obtain ⟨out, hw, hr⟩ := subpacket_write_read enc kind data rest henc hb hwcap hrcap
  rw [write_subpacket_eq enc kind data henc hwcap] at hw
  have hout : subpacketBytes enc kind data = out := by
    cases hw
    rfl
  rwa [← hout] at hr

/-- The payload bytes a window moves: the ZCRCG payloads then the ZCRCW
    payload. -/
def windowPayloadOf (p : List (List Nat) × List Nat) : List Nat := p.1.flatten ++ p.2

theorem windowG_payload_prefix : ∀ (iters : Nat) (rest0 : List Nat),
    ∃ m, windowPayloadOf (windowG iters (rest0.take SUBPACKET_SIZE)
      (rest0.drop SUBPACKET_SIZE)) = rest0.take m := by
  intro iters
  induction iters with
  | zero =>
    exact fun rest0 => ⟨SUBPACKET_SIZE, by simp [windowG, windowPayloadOf]⟩
  | succ n ih =>
    intro rest0
    by_cases hshort :
        ((rest0.drop SUBPACKET_SIZE).take SUBPACKET_SIZE).length < SUBPACKET_SIZE
    · refine ⟨SUBPACKET_SIZE + SUBPACKET_SIZE, ?_⟩
      simp only [windowG, windowPayloadOf, if_pos hshort, List.flatten_cons,
        List.flatten_nil, List.append_nil]
      rw [List.take_add]
    · obtain ⟨m, hm⟩ := ih (rest0.drop SUBPACKET_SIZE)
      refine ⟨SUBPACKET_SIZE + m, ?_⟩
      simp only [windowG, windowPayloadOf, if_neg hshort, List.flatten_cons] at hm ⊢
      rw [List.take_add, ← hm]
      simp

theorem windowG_payload_head (iters : Nat) (chunk rest : List Nat) :
    ∃ t, windowPayloadOf (windowG iters chunk rest) = chunk ++ t := by
  cases iters with
  | zero => exact ⟨[], by simp [windowG, windowPayloadOf]⟩
  | succ n =>
    by_cases hshort : rest.length < SUBPACKET_SIZE
    · exact ⟨rest.take SUBPACKET_SIZE, by
        simp [windowG, windowPayloadOf, List.length_take, hshort]⟩
    · refine ⟨(windowG n (rest.take SUBPACKET_SIZE) (rest.drop SUBPACKET_SIZE)).1.flatten
        ++ (windowG n (rest.take SUBPACKET_SIZE) (rest.drop SUBPACKET_SIZE)).2, ?_⟩
      simp [windowG, windowPayloadOf, List.length_take, hshort]

theorem windowG_bounds : ∀ (iters : Nat) (chunk rest : List Nat),
    chunk.length ≤ SUBPACKET_SIZE → bytesOK chunk → bytesOK rest →
    (∀ g ∈ (windowG iters chunk rest).1, g.length ≤ SUBPACKET_SIZE ∧ bytesOK g) ∧
    ((windowG iters chunk rest).2.length ≤ SUBPACKET_SIZE ∧
      bytesOK (windowG iters chunk rest).2) := by
  intro iters
  induction iters with
  | zero =>
    intro chunk rest hc hcb hrb
    refine ⟨fun g hg => ?_, hc, hcb⟩
    simp [windowG] at hg
  | succ n ih =>
    intro chunk rest hc hcb hrb
    by_cases hshort : (rest.take SUBPACKET_SIZE).length < SUBPACKET_SIZE
    · simp only [windowG, if_pos hshort]
      refine ⟨fun g hg => ?_, by simp [List.length_take], bytesOK_take _ _ hrb⟩
      simp only [List.mem_singleton] at hg
      exact hg ▸ ⟨hc, hcb⟩
    · have hnext : (rest.take SUBPACKET_SIZE).length ≤ SUBPACKET_SIZE := by
        simp [List.length_take]
      have := ih (rest.take SUBPACKET_SIZE) (rest.drop SUBPACKET_SIZE) hnext
        (bytesOK_take _ _ hrb) (bytesOK_drop _ _ hrb)
      simp only [windowG, if_neg hshort]
      refine ⟨fun g hg => ?_, this.2⟩
      rcases List.mem_cons.mp hg with hgc | hgm
      · exact hgc ▸ ⟨hc, hcb⟩
      · exact this.1 g hgm

/-- The subpacket window the data pump emits at offset `o` of `B`. -/
def windowPkts (B : List Nat) (o : Nat) : List Nat :=
  ((windowG (SUBPACKET_PER_ACK - 1) ((B.drop o).take SUBPACKET_SIZE)
      ((B.drop o).drop SUBPACKET_SIZE)).1.map (subpacketBytes .ZBIN32 .ZCRCG)).flatten
    ++ subpacketBytes .ZBIN32 .ZCRCW
      (windowG (SUBPACKET_PER_ACK - 1) ((B.drop o).take SUBPACKET_SIZE)
        ((B.drop o).drop SUBPACKET_SIZE)).2

/-- Bytes one data window advances the transfer from offset `o`. -/
def wAdv (B : List Nat) (o : Nat) : Nat :=
  (windowPayloadOf (windowG (SUBPACKET_PER_ACK - 1) ((B.drop o).take SUBPACKET_SIZE)
    ((B.drop o).drop SUBPACKET_SIZE))).length

theorem windowPayload_take (B : List Nat) (o : Nat) :
    windowPayloadOf (windowG (SUBPACKET_PER_ACK - 1) ((B.drop o).take SUBPACKET_SIZE)
      ((B.drop o).drop SUBPACKET_SIZE)) = (B.drop o).take (wAdv B o) := by
  obtain ⟨m, hm⟩ := windowG_payload_prefix (SUBPACKET_PER_ACK - 1) (B.drop o)
  rw [wAdv, hm, List.length_take]
  rcases le_total m (B.drop o).length with h | h
  · rw [Nat.min_eq_left h]
  · rw [Nat.min_eq_right h, List.take_length, List.take_of_length_le h]

theorem wAdv_pos (B : List Nat) (o : Nat) (h : o < B.length) : 1 ≤ wAdv B o := by
  obtain ⟨t, ht⟩ := windowG_payload_head (SUBPACKET_PER_ACK - 1)
    ((B.drop o).take SUBPACKET_SIZE) ((B.drop o).drop SUBPACKET_SIZE)
  rw [wAdv, ht]
  simp only [List.length_append, List.length_take, List.length_drop, SUBPACKET_SIZE]
  omega

theorem wAdv_le (B : List Nat) (o : Nat) : wAdv B o ≤ B.length - o := by
  obtain ⟨m, hm⟩ := windowG_payload_prefix (SUBPACKET_PER_ACK - 1) (B.drop o)
  rw [wAdv, hm, List.length_take, List.length_drop]
  omega

/-- Bytes the sender writes from the moment it has just parsed a data-phase
    request (ZRPOS or ZACK) for offset `o` until it exits with "OO". -/
def sOut (B : List Nat) (o : Nat) : List Nat :=
  if B.length ≤ o then
    (ZEOF_HEADER.withCount o).write ++ ZFIN_HEADER.write ++ [0x4f, 0x4f]
  else
    (ZDATA_HEADER.withCount o).write ++ windowPkts B o ++ sOut B (o + wAdv B o)
termination_by B.length - o
decreasing_by
  have h1 := wAdv_pos B o (by omega)
  omega

/-- Bytes the receiver writes during the data phase from count `o`: one ZACK
    per window, then the closing ZRINIT and ZFIN. -/
def rOut (B : List Nat) (o : Nat) : List Nat :=
  if B.length ≤ o then zrinitAd ++ ZFIN_HEADER.write
  else (ZACK_HEADER.withCount (o + wAdv B o)).write ++ rOut B (o + wAdv B o)
termination_by B.length - o
decreasing_by
  have h1 := wAdv_pos B o (by omega)
  omega

/-- Fuel that suffices for the sender's data phase from offset `o`. -/
def sFuel (B : List Nat) (o : Nat) : Nat :=
  if B.length ≤ o then 12 else 12 + sFuel B (o + wAdv B o)
termination_by B.length - o
decreasing_by
  have h1 := wAdv_pos B o (by omega)
  omega

/-- Fuel that suffices for the receiver's data phase from count `o`. -/
def rFuel (B : List Nat) (o : Nat) : Nat :=
  if B.length ≤ o then 8 else 8 + rFuel B (o + wAdv B o)
termination_by B.length - o
decreasing_by
  have h1 := wAdv_pos B o (by omega)
  omega

/-- The full byte stream the sender puts on the channel. -/
def senderTranscript (B name : List Nat) (size : Option Nat) : List Nat :=
  ZRQINIT_HEADER.write ++ ((Header.new .ZBIN32 .ZFILE).write
    ++ subpacketBytes .ZBIN32 .ZCRCW (name ++ [0] ++ decimalAscii (size.getD 0) ++ [0]))
    ++ sOut B 0

/-- The full byte stream the receiver puts on the channel. -/
def receiverTranscript (B : List Nat) : List Nat :=
  zrinitAd ++ (zrinitAd ++ ((ZRPOS_HEADER.withCount 0).write ++ rOut B 0))

theorem withCount_kind (h : Header) (c : Nat) : (h.withCount c).kind = h.kind := rfl

theorem withCount_encoding (h : Header) (c : Nat) :
    (h.withCount c).encoding = h.encoding := rfl

theorem withCount_flags_lt (h : Header) (c : Nat) :
    (h.withCount c).f0 < 256 ∧ (h.withCount c).f1 < 256 ∧
    (h.withCount c).f2 < 256 ∧ (h.withCount c).f3 < 256 := by
  refine ⟨?_, ?_, ?_, ?_⟩ <;> exact Nat.mod_lt _ (by omega)

/-- The bytes a successful `write_zdata` call emits for offset `o`. -/
def wzOut (file : List Nat) (o : Nat) : List Nat :=
  if (file.drop o).length = 0 then (ZEOF_HEADER.withCount o).write
  else (ZDATA_HEADER.withCount o).write ++ windowPkts file o

theorem write_zdata_eq (file : List Nat) (h : Header) :
    write_zdata file h = .ok (wzOut file h.count) := by
  by_cases hz : (file.drop h.count).length = 0
  · have hc : ((file.drop h.count).take SUBPACKET_SIZE).length = 0 := by
      simp only [List.length_take, List.length_drop, SUBPACKET_SIZE] at hz ⊢
      omega
    simp [write_zdata, wzOut, hc, hz]
  · have hc : ¬ ((file.drop h.count).take SUBPACKET_SIZE).length = 0 := by
      simp only [List.length_take, SUBPACKET_SIZE]
      omega
    rw [write_zdata, wzOut, if_neg hc, if_neg hz,
      zdataLoop_eq _ _ _ (by simp [List.length_take]), windowPkts]

theorem write_zfile_eq (name : List Nat) (sz : Nat)
    (hlen : name.length ≤ 255) (hsz : sz < 4294967296) :
    write_zfile name sz = .ok ((Header.new .ZBIN32 .ZFILE).write
      ++ subpacketBytes .ZBIN32 .ZCRCW (name ++ [0] ++ decimalAscii sz ++ [0])) := by
  have hd := decimalAscii_length sz hsz
  have hm : (name ++ [0] ++ decimalAscii sz ++ [0]).length ≤ 267 := by
    simp only [List.length_append, List.length_singleton]
    omega
  have hesc := escape_mem_length_le (name ++ [0] ++ decimalAscii sz ++ [0])
  rw [write_zfile, if_neg (by simp only [TX_CAP]; omega),
    write_subpacket_eq _ _ _ (Or.inr rfl) (by simp only [SUBPACKET_SIZE]; omega)]

/-- Junk bytes (no ZPAD anywhere) only cost the sender loop iterations. -/
theorem senderLoop_skip (file name : List Nat) (size : Option Nat) :
    ∀ (j : List Nat), (∀ b ∈ j, b ≠ ZPAD) →
    ∀ (f : Nat) (st : Stage) (inp : List Nat),
      senderLoop file name size (j.length + f) st (j ++ inp)
        = senderLoop file name size f st inp := by
  intro j
  induction j with
  | nil => intro _ f st inp; simp
  | cons b bs ih =>
    intro hj f st inp
    have hb : b ≠ ZPAD := hj b (List.mem_cons_self _ _)
    have hbs : ∀ x ∈ bs, x ≠ ZPAD := fun x hx => hj x (List.mem_cons_of_mem _ hx)
    have hzp : read_zpad (b :: (bs ++ inp)) = (.err, bs ++ inp) := by
      simp [read_zpad, readByte, hb]
    have harith : (b :: bs).length + f = bs.length + f + 1 := by
      simp only [List.length_cons]
      omega
    rw [harith, List.cons_append]
    have h1 : senderLoop file name size (bs.length + f + 1) st (b :: (bs ++ inp))
        = senderLoop file name size (bs.length + f) st (bs ++ inp) := by
      simp only [senderLoop, hzp]
    rw [h1, ih hbs f st inp]

/-- Junk bytes (no ZPAD anywhere) only cost the receiver loop iterations. -/
theorem receiverLoop_skip :
    ∀ (j : List Nat), (∀ b ∈ j, b ≠ ZPAD) →
    ∀ (f : Nat) (st : Option File × Nat) (inp : List Nat),
      receiverLoop (j.length + f) st (j ++ inp) = receiverLoop f st inp := by
  intro j
  induction j with
  | nil => intro _ f st inp; simp
  | cons b bs ih =>
    intro hj f st inp
    have hb : b ≠ ZPAD := hj b (List.mem_cons_self _ _)
    have hbs : ∀ x ∈ bs, x ≠ ZPAD := fun x hx => hj x (List.mem_cons_of_mem _ hx)
    have hzp : read_zpad (b :: (bs ++ inp)) = (.err, bs ++ inp) := by
      simp [read_zpad, readByte, hb]
    have harith : (b :: bs).length + f = bs.length + f + 1 := by
      simp only [List.length_cons]
      omega
    rw [harith, List.cons_append]
    have h1 : receiverLoop (bs.length + f + 1) st (b :: (bs ++ inp))
        = receiverLoop (bs.length + f) st (bs ++ inp) := by
      simp only [receiverLoop, hzp]
    rw [h1, ih hbs f st inp]

theorem subpacketBytes_length_pos (enc : Encoding) (kind : Packet) (data : List Nat) :
    1 ≤ (subpacketBytes enc kind data).length := by
  simp only [subpacketBytes, List.length_append, List.length_cons]
  omega

theorem flatten_map_subpacket_ge (gs : List (List Nat)) :
    gs.length ≤ ((gs.map (subpacketBytes .ZBIN32 .ZCRCG)).flatten).length := by
  induction gs with
  | nil => simp
  | cons g gt ih =>
    have := subpacketBytes_length_pos .ZBIN32 .ZCRCG g
    simp only [List.map_cons, List.flatten_cons, List.length_append, List.length_cons]
    omega

/-- `read_zdata` on a full window: every ZCRCG payload and the final ZCRCW
    payload land in the sink, the count advances by the payload total, and one
    ZACK with the new count goes out. -/
theorem read_zdata_window (gs : List (List Nat)) :
    ∀ (o : Nat) (w rest : List Nat),
    (∀ g ∈ gs, g.length ≤ SUBPACKET_SIZE ∧ bytesOK g) →
    w.length ≤ SUBPACKET_SIZE → bytesOK w →
    o + (gs.flatten ++ w).length < 4294967296 →
    ∀ (fuel : Nat), gs.length + 1 ≤ fuel →
    read_zdata fuel Encoding.ZBIN32.toByte o
        ((gs.map (subpacketBytes .ZBIN32 .ZCRCG)).flatten
          ++ (subpacketBytes .ZBIN32 .ZCRCW w ++ rest))
      = (.ok (o + (gs.flatten ++ w).length), rest,
          (ZACK_HEADER.withCount (o + (gs.flatten ++ w).length)).write,
          gs.flatten ++ w) := by
  have henc : Encoding.tryFrom Encoding.ZBIN32.toByte = .ok .ZBIN32 := rfl
  induction gs with
  | nil =>
    intro o w rest _ hwl hwb hcnt fuel hfuel
    rcases fuel with _ | f
    · omega
    have hsp := read_subpacketBytes .ZBIN32 .ZCRCW w rest (Or.inr rfl) hwb
      (by have := escape_mem_length_le w; omega)
      (by simp only [RX_CAP, SUBPACKET_SIZE] at hwl ⊢; omega)
    have hmod : (o + w.length) % 4294967296 = o + w.length := by
      simp only [List.flatten_nil, List.nil_append, List.length_nil] at hcnt
      exact Nat.mod_eq_of_lt hcnt
    simp only [read_zdata, henc, List.map_nil, List.flatten_nil, List.nil_append,
      hsp, hmod]
  | cons g gt ih =>
    intro o w rest hg hwl hwb hcnt fuel hfuel
    rcases fuel with _ | f
    · simp at hfuel
    have hg0 := hg g (List.mem_cons_self _ _)
    have hgt : ∀ x ∈ gt, x.length ≤ SUBPACKET_SIZE ∧ bytesOK x :=
      fun x hx => hg x (List.mem_cons_of_mem _ hx)
    have hsp := read_subpacketBytes .ZBIN32 .ZCRCG g
      ((gt.map (subpacketBytes .ZBIN32 .ZCRCG)).flatten
        ++ (subpacketBytes .ZBIN32 .ZCRCW w ++ rest)) (Or.inr rfl) hg0.2
      (by have := escape_mem_length_le g; have := hg0.1; omega)
      (by have := hg0.1; simp only [RX_CAP, SUBPACKET_SIZE] at this ⊢; omega)
    have hlen : ((g :: gt).flatten ++ w).length
        = g.length + (gt.flatten ++ w).length := by
      simp [List.flatten_cons]
    have hcnt2 : o + g.length + (gt.flatten ++ w).length < 4294967296 := by
      rw [hlen] at hcnt
      omega
    have hmod : (o + g.length) % 4294967296 = o + g.length := by
      have : o + g.length ≤ o + g.length + (gt.flatten ++ w).length := by omega
      exact Nat.mod_eq_of_lt (by omega)
    have hrec := ih (o + g.length) w rest hgt hwl hwb hcnt2 f (by
      simp only [List.length_cons] at hfuel
      omega)
    have hin : ((g :: gt).map (subpacketBytes .ZBIN32 .ZCRCG)).flatten
          ++ (subpacketBytes .ZBIN32 .ZCRCW w ++ rest)
        = subpacketBytes .ZBIN32 .ZCRCG g
          ++ ((gt.map (subpacketBytes .ZBIN32 .ZCRCG)).flatten
            ++ (subpacketBytes .ZBIN32 .ZCRCW w ++ rest)) := by
      simp [List.flatten_cons]
    rw [hin]
    have harith : o + ((g :: gt).flatten ++ w).length
        = o + g.length + (gt.flatten ++ w).length := by
      rw [hlen]
      omega
    have hsink : (g :: gt).flatten ++ w = g ++ (gt.flatten ++ w) := by
      simp [List.flatten_cons]
    simp only [read_zdata, henc, hsp, hmod, hrec, harith, hsink]
    simp [List.length_append, Nat.add_assoc]

theorem zrinitAd_eq : zrinitAd = (Header.mk .ZHEX .ZRINIT 0 0 0 42).write := by decide

theorem sstep_zrinit_waiting (file name : List Nat) (size : Option Nat)
    (rest : List Nat) (f : Nat) (zf : List Nat)
    (hzf : write_zfile name (size.getD 0) = .ok zf) :
    senderLoop file name size (f + 1) .Waiting (zrinitAd ++ rest)
      = prep2 zf (senderLoop file name size f .Ready ([13, 10, 17] ++ rest)) := by
  obtain ⟨mid, hz, hr⟩ := header_write_read ⟨.ZHEX, .ZRINIT, 0, 0, 0, 42⟩
    (by decide) (by decide) (by decide) (by decide) rest
  rw [zrinitAd_eq]
  simp only [senderLoop, hz, hr, hzf, Header.trailer]
  rfl

theorem sstep_zrinit_ready (file name : List Nat) (size : Option Nat)
    (rest : List Nat) (f : Nat) :
    senderLoop file name size (f + 1) .Ready (zrinitAd ++ rest)
      = senderLoop file name size f .Ready ([13, 10, 17] ++ rest) := by
  obtain ⟨mid, hz, hr⟩ := header_write_read ⟨.ZHEX, .ZRINIT, 0, 0, 0, 42⟩
    (by decide) (by decide) (by decide) (by decide) rest
  rw [zrinitAd_eq]
  simp only [senderLoop, hz, hr, Header.trailer]
  rfl

theorem sstep_zrinit_receiving (file name : List Nat) (size : Option Nat)
    (rest : List Nat) (f : Nat) :
    senderLoop file name size (f + 1) .Receiving (zrinitAd ++ rest)
      = prep2 ZFIN_HEADER.write
          (senderLoop file name size f .Receiving ([13, 10, 17] ++ rest)) := by
  obtain ⟨mid, hz, hr⟩ := header_write_read ⟨.ZHEX, .ZRINIT, 0, 0, 0, 42⟩
    (by decide) (by decide) (by decide) (by decide) rest
  rw [zrinitAd_eq]
  simp only [senderLoop, hz, hr, Header.trailer]
  rfl

theorem sstep_zrpos (file name : List Nat) (size : Option Nat)
    (rest : List Nat) (f : Nat) :
    senderLoop file name size (f + 1) .Ready ((ZRPOS_HEADER.withCount 0).write ++ rest)
      = prep2 (wzOut file 0)
          (senderLoop file name size f .Receiving ([13, 10, 17] ++ rest)) := by
  have hh : ZRPOS_HEADER.withCount 0 = ⟨.ZHEX, .ZRPOS, 0, 0, 0, 0⟩ := rfl
  obtain ⟨mid, hz, hr⟩ := header_write_read ⟨.ZHEX, .ZRPOS, 0, 0, 0, 0⟩
    (by decide) (by decide) (by decide) (by decide) rest
  have hwz := write_zdata_eq file (⟨.ZHEX, .ZRPOS, 0, 0, 0, 0⟩ : Header)
  have hcnt : (⟨.ZHEX, .ZRPOS, 0, 0, 0, 0⟩ : Header).count = 0 := rfl
  rw [hcnt] at hwz
  rw [hh]
  simp only [senderLoop, hz, hr, hwz, Header.trailer]
  rfl

theorem sstep_zack (file name : List Nat) (size : Option Nat) (o : Nat)
    (ho : o < 4294967296) (rest : List Nat) (f : Nat) :
    senderLoop file name size (f + 1) .Receiving
        ((ZACK_HEADER.withCount o).write ++ rest)
      = prep2 (wzOut file o)
          (senderLoop file name size f .Receiving ([13, 10] ++ rest)) := by
  obtain ⟨hf0, hf1, hf2, hf3⟩ := withCount_flags_lt ZACK_HEADER o
  obtain ⟨mid, hz, hr⟩ := header_write_read (ZACK_HEADER.withCount o)
    hf0 hf1 hf2 hf3 rest
  have hwz := write_zdata_eq file (ZACK_HEADER.withCount o)
  rw [Header.withCount_count _ _ ho] at hwz
  have ht : (ZACK_HEADER.withCount o).trailer = [13, 10] := rfl
  have hk : (ZACK_HEADER.withCount o).kind = Frame.ZACK := rfl
  rw [ht] at hr
  simp only [senderLoop, hz, hr, hk, hwz]
  rfl

theorem sstep_zfin (file name : List Nat) (size : Option Nat)
    (rest : List Nat) (f : Nat) :
    senderLoop file name size (f + 1) .Receiving (ZFIN_HEADER.write ++ rest)
      = (.ok (), [0x4f, 0x4f]) := by
  obtain ⟨mid, hz, hr⟩ := header_write_read ZFIN_HEADER
    (by decide) (by decide) (by decide) (by decide) rest
  simp only [senderLoop, hz, hr]
  rfl

theorem rstep_zrqinit (st : Option File × Nat) (hst : st.1 = none)
    (rest : List Nat) (f : Nat) :
    receiverLoop (f + 1) st (ZRQINIT_HEADER.write ++ rest)
      = prep3 zrinitAd (receiverLoop f st ([13, 10, 17] ++ rest)) := by
  obtain ⟨mid, hz, hr⟩ := header_write_read ZRQINIT_HEADER
    (by decide) (by decide) (by decide) (by decide) rest
  simp only [receiverLoop, hz, hr, Header.trailer, hst]
  rfl

theorem rstep_zfile (name : List Nat) (sz : Nat) (rest : List Nat) (f : Nat)
    (hb : bytesOK name) (hne : name ≠ []) (hlen : name.length ≤ 255)
    (h0 : 0 ∉ name) (hsz : sz < 4294967296) :
    receiverLoop (f + 1) ((none : Option File), 0)
        ((Header.new .ZBIN32 .ZFILE).write
          ++ (subpacketBytes .ZBIN32 .ZCRCW (name ++ [0] ++ decimalAscii sz ++ [0])
            ++ rest))
      = prep3 (ZRPOS_HEADER.withCount 0).write
          (receiverLoop f (some (File.ofName name), 0) rest) := by
  obtain ⟨mid, hz, hr⟩ := header_write_read (Header.new .ZBIN32 .ZFILE)
    (by decide) (by decide) (by decide) (by decide)
    (subpacketBytes .ZBIN32 .ZCRCW (name ++ [0] ++ decimalAscii sz ++ [0]) ++ rest)
  have hmb : bytesOK (name ++ [0] ++ decimalAscii sz ++ [0]) :=
    bytesOK_append (bytesOK_append (bytesOK_append hb
      (bytesOK_cons (by omega) bytesOK_nil)) (decimalAsciiAux_bytesOK _ _))
      (bytesOK_cons (by omega) bytesOK_nil)
  have hd := decimalAscii_length sz hsz
  have hml : (name ++ [0] ++ decimalAscii sz ++ [0]).length ≤ 267 := by
    simp only [List.length_append, List.length_singleton]
    omega
  have hesc := escape_mem_length_le (name ++ [0] ++ decimalAscii sz ++ [0])
  have hsp := read_subpacketBytes .ZBIN32 .ZCRCW
    (name ++ [0] ++ decimalAscii sz ++ [0]) rest (Or.inr rfl) hmb
    (by simp only [SUBPACKET_SIZE]; omega)
    (by simp only [RX_CAP]; omega)
  have hform : name ++ [0] ++ decimalAscii sz ++ [0]
      = name ++ 0 :: (decimalAscii sz ++ [0]) := by simp
  have htw : (name ++ [0] ++ decimalAscii sz ++ [0]).takeWhile (· ≠ 0) = name := by
    rw [hform]
    exact takeWhile_name name _ h0
  have hmem : 0 ∈ name ++ [0] ++ decimalAscii sz ++ [0] := by simp
  have hnl : ¬ name.length = 0 := by
    intro hc
    exact hne (List.length_eq_zero.mp hc)
  have hrz : read_zfile (Header.new .ZBIN32 .ZFILE)
        (subpacketBytes .ZBIN32 .ZCRCW (name ++ [0] ++ decimalAscii sz ++ [0]) ++ rest)
      = (.ok (some (File.ofName name)), rest, (ZRPOS_HEADER.withCount 0).write) := by
    simp only [read_zfile, Header.new, hsp, hmem, if_true, htw, hnl]
    simp [hlen, hnl]
  have ht : (Header.new .ZBIN32 .ZFILE).trailer = [] := rfl
  have hk : (Header.new .ZBIN32 .ZFILE).kind = .ZFILE := rfl
  rw [ht, List.nil_append] at hr
  simp only [receiverLoop, hz, hr, hk, hrz]
  rfl

theorem rstep_zdata (F : File) (o : Nat) (ho : o < 4294967296)
    (rest : List Nat) (f : Nat) :
    receiverLoop (f + 1) (some F, o) ((ZDATA_HEADER.withCount o).write ++ rest)
      = match read_zdata (rest.length + 1) Encoding.ZBIN32.toByte o rest with
        | (.ok c2, r2, out, sink) => prep3s out sink (receiverLoop f (some F, c2) r2)
        | (.err, _, out, sink) => (.err, out, sink)
        | (.crash, _, out, sink) => (.crash, out, sink)
        | (.spin, _, out, sink) => (.spin, out, sink) := by
  obtain ⟨hf0, hf1, hf2, hf3⟩ := withCount_flags_lt ZDATA_HEADER o
  obtain ⟨mid, hz, hr⟩ := header_write_read (ZDATA_HEADER.withCount o)
    hf0 hf1 hf2 hf3 rest
  have ht : (ZDATA_HEADER.withCount o).trailer = [] := rfl
  have hk : (ZDATA_HEADER.withCount o).kind = .ZDATA := rfl
  have he : (ZDATA_HEADER.withCount o).encoding = .ZBIN32 := rfl
  have hc := Header.withCount_count ZDATA_HEADER o ho
  rw [ht, List.nil_append] at hr
  simp only [receiverLoop, hz, hr, hk, he, hc]
  simp

theorem rstep_zeof (F : File) (o : Nat) (ho : o < 4294967296)
    (rest : List Nat) (f : Nat) :
    receiverLoop (f + 1) (some F, o) ((ZEOF_HEADER.withCount o).write ++ rest)
      = prep3 zrinitAd (receiverLoop f (some F, o) rest) := by
  obtain ⟨hf0, hf1, hf2, hf3⟩ := withCount_flags_lt ZEOF_HEADER o
  obtain ⟨mid, hz, hr⟩ := header_write_read (ZEOF_HEADER.withCount o)
    hf0 hf1 hf2 hf3 rest
  have ht : (ZEOF_HEADER.withCount o).trailer = [] := rfl
  have hk : (ZEOF_HEADER.withCount o).kind = .ZEOF := rfl
  have hc := Header.withCount_count ZEOF_HEADER o ho
  rw [ht, List.nil_append] at hr
  simp only [receiverLoop, hz, hr, hk, hc]
  simp

theorem rstep_zfin (F : File) (o : Nat) (rest : List Nat) (f : Nat) :
    receiverLoop (f + 1) (some F, o) (ZFIN_HEADER.write ++ rest)
      = (.ok (some F, o), ZFIN_HEADER.write, []) := by
  obtain ⟨mid, hz, hr⟩ := header_write_read ZFIN_HEADER
    (by decide) (by decide) (by decide) (by decide) rest
  simp only [receiverLoop, hz, hr]
  rfl

theorem wzOut_sOut (B : List Nat) (o : Nat) :
    wzOut B o ++ (if B.length ≤ o then ZFIN_HEADER.write ++ [0x4f, 0x4f]
      else sOut B (o + wAdv B o)) = sOut B o := by
  have hs : sOut B o = if B.length ≤ o then
      (ZEOF_HEADER.withCount o).write ++ ZFIN_HEADER.write ++ [0x4f, 0x4f]
    else (ZDATA_HEADER.withCount o).write ++ windowPkts B o
      ++ sOut B (o + wAdv B o) := by
    rw [sOut.eq_def]
  by_cases h : B.length ≤ o
  · have hz : (B.drop o).length = 0 := by
      simp only [List.length_drop]
      omega
    rw [hs, if_pos h, if_pos h, wzOut, if_pos hz]
    simp [List.append_assoc]
  · have hz : ¬ (B.drop o).length = 0 := by
      simp only [List.length_drop]
      omega
    rw [hs, if_neg h, if_neg h, wzOut, if_neg hz]

/-- The sender's data phase: in stage Receiving, fed the receiver's stream of
    ZACKs then ZRINIT/ZFIN, it emits the remaining windows and ends Ok with
    the final "OO". -/
theorem senderPhase (B name : List Nat) (size : Option Nat)
    (hB : B.length < 4294967296) :
    ∀ (rem o : Nat), B.length - o = rem → o ≤ B.length →
    ∃ (F : Nat), ∀ (j : List Nat), (∀ b ∈ j, b ≠ ZPAD) → ∀ (f : Nat),
      senderLoop B name size (j.length + (F + f)) .Receiving (j ++ rOut B o)
        = (.ok (), if B.length ≤ o then ZFIN_HEADER.write ++ [0x4f, 0x4f]
            else sOut B (o + wAdv B o)) := by
  intro rem
  induction rem using Nat.strong_induction_on with
  | _ rem ih =>
    intro o hrem hole
    by_cases h : B.length ≤ o
    · refine ⟨12, ?_⟩
      intro j hj f
      rw [senderLoop_skip B name size j hj]
      have hro : rOut B o = zrinitAd ++ ZFIN_HEADER.write := by
        rw [rOut.eq_def, if_pos h]
      rw [hro]
      have h12 : 12 + f = (11 + f) + 1 := by omega
      rw [h12, sstep_zrinit_receiving]
      have h11 : 11 + f = ([13, 10, 17] : List Nat).length + (7 + f + 1) := by
        simp only [List.length_cons, List.length_nil]
        omega
      rw [h11, senderLoop_skip B name size [13, 10, 17] (by decide)]
      have hfin : ZFIN_HEADER.write = ZFIN_HEADER.write ++ [] := by simp
      rw [hfin, sstep_zfin]
      simp [prep2, if_pos h]
    · have hadv := wAdv_pos B o (by omega)
      have hle := wAdv_le B o
      obtain ⟨F', hF'⟩ := ih (B.length - (o + wAdv B o)) (by omega)
        (o + wAdv B o) rfl (by omega)
      refine ⟨12 + F', ?_⟩
      intro j hj f
      rw [senderLoop_skip B name size j hj]
      have hro : rOut B o = (ZACK_HEADER.withCount (o + wAdv B o)).write
          ++ rOut B (o + wAdv B o) := by
        rw [rOut.eq_def, if_neg h]
      rw [hro]
      have harith : 12 + F' + f = (11 + F' + f) + 1 := by omega
      rw [harith, sstep_zack B name size (o + wAdv B o) (by omega)]
      have h2 : 11 + F' + f = ([13, 10] : List Nat).length + (F' + (9 + f)) := by
        simp only [List.length_cons, List.length_nil]
        omega
      rw [h2, hF' [13, 10] (by decide) (9 + f)]
      simp only [prep2]
      rw [wzOut_sOut B (o + wAdv B o), if_neg h]

/-- The receiver's data phase: with the file open at count `o`, fed the
    sender's remaining windows then ZEOF/ZFIN, it sinks exactly the rest of
    the file, ZACKs each window, and ends Ok. -/
theorem receiverPhase (B : List Nat) (F : File) (hB : bytesOK B)
    (hlen32 : B.length < 4294967296) :
    ∀ (rem o : Nat), B.length - o = rem → o ≤ B.length →
    ∃ (G : Nat), ∀ (f : Nat),
      receiverLoop (G + f) (some F, o) (sOut B o)
        = (.ok (some F, B.length), rOut B o, B.drop o) := by
  intro rem
  induction rem using Nat.strong_induction_on with
  | _ rem ih =>
    intro o hrem hole
    by_cases h : B.length ≤ o
    · have ho : o = B.length := by omega
      refine ⟨8, ?_⟩
      intro f
      have hs : sOut B o = (ZEOF_HEADER.withCount o).write
          ++ (ZFIN_HEADER.write ++ [0x4f, 0x4f]) := by
        rw [sOut.eq_def, if_pos h, List.append_assoc]
      rw [hs]
      have h8 : 8 + f = (7 + f) + 1 := by omega
      rw [h8, rstep_zeof F o (by omega)]
      have h7 : 7 + f = (6 + f) + 1 := by omega
      rw [h7, rstep_zfin]
      have hro : rOut B o = zrinitAd ++ ZFIN_HEADER.write := by
        rw [rOut.eq_def, if_pos h]
      subst ho
      simp [prep3, hro, List.drop_length]
    · have hadv := wAdv_pos B o (by omega)
      have hle := wAdv_le B o
      obtain ⟨G', hG'⟩ := ih (B.length - (o + wAdv B o)) (by omega)
        (o + wAdv B o) rfl (by omega)
      refine ⟨8 + G', ?_⟩
      intro f
      have hs : sOut B o = (ZDATA_HEADER.withCount o).write
          ++ (windowPkts B o ++ sOut B (o + wAdv B o)) := by
        rw [sOut.eq_def, if_neg h, List.append_assoc]
      rw [hs]
      have h8 : 8 + G' + f = (7 + G' + f) + 1 := by omega
      rw [h8, rstep_zdata F o (by omega)]
      set W := windowG (SUBPACKET_PER_ACK - 1) ((B.drop o).take SUBPACKET_SIZE)
        ((B.drop o).drop SUBPACKET_SIZE) with hW
      have hcb : ((B.drop o).take SUBPACKET_SIZE).length ≤ SUBPACKET_SIZE := by
        simp [List.length_take]
      have hbounds := windowG_bounds (SUBPACKET_PER_ACK - 1)
        ((B.drop o).take SUBPACKET_SIZE) ((B.drop o).drop SUBPACKET_SIZE)
        hcb (bytesOK_take _ _ (bytesOK_drop _ _ hB))
        (bytesOK_drop _ _ (bytesOK_drop _ _ hB))
      rw [← hW] at hbounds
      have hpay := windowPayload_take B o
      rw [← hW] at hpay
      simp only [windowPayloadOf] at hpay
      have hplen : (W.1.flatten ++ W.2).length = wAdv B o := by
        rw [hpay]
        simp only [List.length_take, List.length_drop]
        omega
      have hcnt : o + (W.1.flatten ++ W.2).length < 4294967296 := by
        rw [hplen]
        omega
      have hshape : windowPkts B o ++ sOut B (o + wAdv B o)
          = (W.1.map (subpacketBytes .ZBIN32 .ZCRCG)).flatten
            ++ (subpacketBytes .ZBIN32 .ZCRCW W.2 ++ sOut B (o + wAdv B o)) := by
        rw [windowPkts, ← hW, List.append_assoc]
      rw [hshape]
      have hfuel : W.1.length + 1
          ≤ ((W.1.map (subpacketBytes .ZBIN32 .ZCRCG)).flatten
            ++ (subpacketBytes .ZBIN32 .ZCRCW W.2 ++ sOut B (o + wAdv B o))).length
            + 1 := by
        have h1 := flatten_map_subpacket_ge W.1
        simp only [List.length_append]
        omega
      rw [read_zdata_window W.1 o W.2 (sOut B (o + wAdv B o))
        hbounds.1 hbounds.2.1 hbounds.2.2 hcnt _ hfuel]
      rw [hplen]
      have hG := hG' (7 + f)
      have harith2 : G' + (7 + f) = 7 + G' + f := by omega
      rw [harith2] at hG
      simp only [hG, prep3s]
      have hro : rOut B o = (ZACK_HEADER.withCount (o + wAdv B o)).write
          ++ rOut B (o + wAdv B o) := by
        rw [rOut.eq_def, if_neg h]
      have hdrop : B.drop o = (W.1.flatten ++ W.2) ++ B.drop (o + wAdv B o) := by
        rw [hpay]
        have hdd : B.drop (o + wAdv B o) = (B.drop o).drop (wAdv B o) := by
          rw [List.drop_drop]
        rw [hdd, List.take_append_drop]
      rw [hro, hdrop]

/-- The whole sender run against the receiver's transcript. -/
theorem senderSession (B name : List Nat) (size : Option Nat)
    (hB32 : B.length < 4294967296) (hnlen : name.length ≤ 255)
    (hsz : size.getD 0 < 4294967296) :
    ∃ (F : Nat), ∀ (f : Nat),
      writeTop B name size (F + f) (receiverTranscript B)
        = (.ok (), senderTranscript B name size) := by
  obtain ⟨F0, hF0⟩ := senderPhase B name size hB32 (B.length - 0) 0 rfl (by omega)
  refine ⟨12 + F0, ?_⟩
  intro f
  rw [writeTop, receiverTranscript]
  have hzf := write_zfile_eq name (size.getD 0) hnlen hsz
  have h1 : 12 + F0 + f = (11 + F0 + f) + 1 := by omega
  rw [h1, sstep_zrinit_waiting B name size _ _ _ hzf]
  have h2 : 11 + F0 + f = ([13, 10, 17] : List Nat).length + (7 + F0 + f + 1) := by
    simp only [List.length_cons, List.length_nil]
    omega
  rw [h2, senderLoop_skip B name size [13, 10, 17] (by decide),
    sstep_zrinit_ready]
  have h3 : 7 + F0 + f = ([13, 10, 17] : List Nat).length + (3 + F0 + f + 1) := by
    simp only [List.length_cons, List.length_nil]
    omega
  rw [h3, senderLoop_skip B name size [13, 10, 17] (by decide), sstep_zrpos]
  have h4 : 3 + F0 + f = ([13, 10, 17] : List Nat).length + (F0 + f) := by
    simp only [List.length_cons, List.length_nil]
    omega
  rw [h4, hF0 [13, 10, 17] (by decide) f]
  simp only [prep2]
  rw [wzOut_sOut B 0, senderTranscript]
  simp [List.append_assoc]

/-- The whole receiver run against the sender's transcript. -/
theorem receiverSession (B name : List Nat) (size : Option Nat)
    (hB : bytesOK B) (hB32 : B.length < 4294967296) (hbname : bytesOK name)
    (hne : name ≠ []) (hnlen : name.length ≤ 255) (h0 : 0 ∉ name)
    (hsz : size.getD 0 < 4294967296) :
    ∃ (G : Nat), ∀ (f : Nat),
      readTop (G + f) ((none : Option File), 0) (senderTranscript B name size)
        = (.ok (some (File.ofName name), B.length), receiverTranscript B, B) := by
  obtain ⟨G0, hG0⟩ := receiverPhase B (File.ofName name) hB hB32
    (B.length - 0) 0 rfl (by omega)
  refine ⟨5 + G0, ?_⟩
  intro f
  have hrt : readTop (5 + G0 + f) ((none : Option File), 0)
        (senderTranscript B name size)
      = prep3 zrinitAd (receiverLoop (5 + G0 + f) (none, 0)
          (senderTranscript B name size)) := by
    simp [readTop]
  rw [hrt, senderTranscript, List.append_assoc]
  have h1 : 5 + G0 + f = (4 + G0 + f) + 1 := by omega
  rw [h1, rstep_zrqinit (none, 0) rfl]
  have h2 : 4 + G0 + f = ([13, 10, 17] : List Nat).length + (G0 + f + 1) := by
    simp only [List.length_cons, List.length_nil]
    omega
  rw [h2, receiverLoop_skip [13, 10, 17] (by decide), List.append_assoc,
    rstep_zfile name (size.getD 0) (sOut B 0) (G0 + f) hbname hne hnlen h0 hsz,
    hG0 f]
  simp only [prep3, receiverTranscript, List.drop_zero]

/-- C1: end-to-end round trip.  For any payload `B` of at most 11 MiB (any
    byte values), with a well-formed file name and a size below 2^32, the
    sender `write` and the receiver `read` started at `(none, 0)` agree on a
    pair of transcripts: each side, fed the other's complete output, returns
    success, and the receiver's sink holds exactly `B` with `bytes_received`
    equal to `B.length`. -/
theorem c1_end_to_end (B name : List Nat) (size : Option Nat)
    (hB : bytesOK B) (hlen : B.length ≤ 11534336)
    (hname : bytesOK name) (hne : name ≠ []) (hnlen : name.length ≤ 255)
    (h0 : 0 ∉ name) (hsz : size.getD 0 < 4294967296) :
    ∃ (sfuel rfuel : Nat),
      writeTop B name size sfuel (receiverTranscript B)
        = (.ok (), senderTranscript B name size) ∧
      readTop rfuel ((none : Option File), 0) (senderTranscript B name size)
        = (.ok (some (File.ofName name), B.length), receiverTranscript B, B) := by
  have hB32 : B.length < 4294967296 := by omega
  obtain ⟨F, hF⟩ := senderSession B name size hB32 hnlen hsz
  obtain ⟨G, hG⟩ := receiverSession B name size hB hB32 hname hne hnlen h0 hsz
  exact ⟨F + 0, G + 0, hF 0, hG 0⟩

/-- C1 witness: a concrete three-byte transfer. -/
theorem c1_end_to_end_witness :
    ∃ (sfuel rfuel : Nat),
      writeTop [1, 2, 3] [97] (some 3) sfuel (receiverTranscript [1, 2, 3])
        = (.ok (), senderTranscript [1, 2, 3] [97] (some 3)) ∧
      readTop rfuel ((none : Option File), 0)
          (senderTranscript [1, 2, 3] [97] (some 3))
        = (.ok (some (File.ofName [97]), 3), receiverTranscript [1, 2, 3],
            [1, 2, 3]) :=
  c1_end_to_end [1, 2, 3] [97] (some 3) (by decide) (by decide) (by decide)
    (by decide) (by decide) (by decide) (by decide)
